import Mathlib

/-!
Shallow embedding of the pica-mcp request-construction engine.

The repository contains several near-verbatim copies of the engine:
* `app/api/[transport]/route.ts` (the `PicaClient` class with
  `replacePathVariables`, `executeAction`, `generateRequestConfig` and the
  `generate_action_config_knowledge` tool handler); the same code appears in
  `unnamed/part_002` and `unnamed/part_005`.  These variants trim the
  placeholder name and percent-encode substituted values.  We embed them in
  namespace `Route`.
* `src/index.ts`, the legacy stdio server, whose `replacePathVariables`
  neither trims nor percent-encodes and which rejects every falsy value.
  We embed it in namespace `Legacy`.

JavaScript dynamic values are modelled by `JValue`; `Record` objects are
association lists whose keys are unique in every run of the real program
(JS objects cannot carry duplicate keys).  Thrown `Error`s are modelled by
`Except PicaError`; `renderError` reproduces the exact message strings of
the source.  The nondeterministic multipart boundary produced by the
`form-data` library is passed in as an explicit `boundary` argument.
-/

/-- JavaScript values as delivered by JSON tool arguments. -/
inductive JValue where
  | null : JValue
  | bool (b : Bool) : JValue
  | num (n : Int) : JValue
  | str (s : String) : JValue
  | arr (xs : List JValue) : JValue
  | obj (fields : List (String × JValue)) : JValue
deriving Repr, Inhabited

mutual

def JValue.decEq : (a b : JValue) → Decidable (a = b)
  | .null, .null => .isTrue rfl
  | .null, .bool _ => .isFalse (fun h => JValue.noConfusion h)
  | .null, .num _ => .isFalse (fun h => JValue.noConfusion h)
  | .null, .str _ => .isFalse (fun h => JValue.noConfusion h)
  | .null, .arr _ => .isFalse (fun h => JValue.noConfusion h)
  | .null, .obj _ => .isFalse (fun h => JValue.noConfusion h)
  | .bool _, .null => .isFalse (fun h => JValue.noConfusion h)
  | .bool a, .bool b =>
    if h : a = b then .isTrue (by rw [h])
    else .isFalse (fun hh => h (JValue.bool.inj hh))
  | .bool _, .num _ => .isFalse (fun h => JValue.noConfusion h)
  | .bool _, .str _ => .isFalse (fun h => JValue.noConfusion h)
  | .bool _, .arr _ => .isFalse (fun h => JValue.noConfusion h)
  | .bool _, .obj _ => .isFalse (fun h => JValue.noConfusion h)
  | .num _, .null => .isFalse (fun h => JValue.noConfusion h)
  | .num _, .bool _ => .isFalse (fun h => JValue.noConfusion h)
  | .num a, .num b =>
    if h : a = b then .isTrue (by rw [h])
    else .isFalse (fun hh => h (JValue.num.inj hh))
  | .num _, .str _ => .isFalse (fun h => JValue.noConfusion h)
  | .num _, .arr _ => .isFalse (fun h => JValue.noConfusion h)
  | .num _, .obj _ => .isFalse (fun h => JValue.noConfusion h)
  | .str _, .null => .isFalse (fun h => JValue.noConfusion h)
  | .str _, .bool _ => .isFalse (fun h => JValue.noConfusion h)
  | .str _, .num _ => .isFalse (fun h => JValue.noConfusion h)
  | .str a, .str b =>
    if h : a = b then .isTrue (by rw [h])
    else .isFalse (fun hh => h (JValue.str.inj hh))
  | .str _, .arr _ => .isFalse (fun h => JValue.noConfusion h)
  | .str _, .obj _ => .isFalse (fun h => JValue.noConfusion h)
  | .arr _, .null => .isFalse (fun h => JValue.noConfusion h)
  | .arr _, .bool _ => .isFalse (fun h => JValue.noConfusion h)
  | .arr _, .num _ => .isFalse (fun h => JValue.noConfusion h)
  | .arr _, .str _ => .isFalse (fun h => JValue.noConfusion h)
  | .arr xs, .arr ys =>
    match JValue.decEqList xs ys with
    | .isTrue h => .isTrue (by rw [h])
    | .isFalse h => .isFalse (fun hh => h (JValue.arr.inj hh))
  | .arr _, .obj _ => .isFalse (fun h => JValue.noConfusion h)
  | .obj _, .null => .isFalse (fun h => JValue.noConfusion h)
  | .obj _, .bool _ => .isFalse (fun h => JValue.noConfusion h)
  | .obj _, .num _ => .isFalse (fun h => JValue.noConfusion h)
  | .obj _, .str _ => .isFalse (fun h => JValue.noConfusion h)
  | .obj _, .arr _ => .isFalse (fun h => JValue.noConfusion h)
  | .obj xs, .obj ys =>
    match JValue.decEqFields xs ys with
    | .isTrue h => .isTrue (by rw [h])
    | .isFalse h => .isFalse (fun hh => h (JValue.obj.inj hh))

def JValue.decEqList : (xs ys : List JValue) → Decidable (xs = ys)
  | [], [] => .isTrue rfl
  | [], _ :: _ => .isFalse (fun h => List.noConfusion h)
  | _ :: _, [] => .isFalse (fun h => List.noConfusion h)
  | x :: xs, y :: ys =>
    match JValue.decEq x y with
    | .isFalse h => .isFalse (fun hh => h (List.cons.inj hh).1)
    | .isTrue h1 =>
      match JValue.decEqList xs ys with
      | .isTrue h2 => .isTrue (by rw [h1, h2])
      | .isFalse h2 => .isFalse (fun hh => h2 (List.cons.inj hh).2)

def JValue.decEqFields : (xs ys : List (String × JValue)) → Decidable (xs = ys)
  | [], [] => .isTrue rfl
  | [], _ :: _ => .isFalse (fun h => List.noConfusion h)
  | _ :: _, [] => .isFalse (fun h => List.noConfusion h)
  | (k, v) :: xs, (k2, v2) :: ys =>
    if h0 : k = k2 then
      match JValue.decEq v v2 with
      | .isFalse h => .isFalse (fun hh => h (congrArg (fun l => (l.headD ("", .null)).2) hh))
      | .isTrue h1 =>
        match JValue.decEqFields xs ys with
        | .isTrue h2 => .isTrue (by rw [h0, h1, h2])
        | .isFalse h2 => .isFalse (fun hh => h2 (List.cons.inj hh).2)
    else .isFalse (fun hh => h0 (congrArg (fun l => (l.headD ("", .null)).1) hh))

end

instance : DecidableEq JValue := JValue.decEq

namespace JValue

/-- JavaScript truthiness of a value (`NaN` is not modelled; object and
array values are always truthy). -/
def truthy : JValue → Bool
  | .null => false
  | .bool b => b
  | .num n => n != 0
  | .str s => s != ""
  | .arr _ => true
  | .obj _ => true

end JValue

/-- Truthiness of a possibly-undefined value (`none` = JS `undefined`). -/
def jTruthy : Option JValue → Bool
  | none => false
  | some v => v.truthy

/-- A value of the `string | number | boolean` union accepted by the zod
schemas for `pathVariables`. -/
def scalarJ : JValue → Prop
  | .bool _ => True
  | .num _ => True
  | .str _ => True
  | _ => False

instance : DecidablePred scalarJ := by
  intro v
  cases v <;> simp [scalarJ] <;> infer_instance

/- ### Association-list maps (JS object semantics)

JS objects are modelled as insertion-ordered association lists with unique
keys; the operations below preserve key uniqueness, and lookups return the
first (hence only) binding. -/

/-- `m[k]`. -/
def objGet {a : Type} (m : List (String × a)) (k : String) : Option a :=
  (m.find? (fun p => p.1 == k)).map (fun p => p.2)

/-- `m[k] = v`: overwrite in place, else append. -/
def objSet {a : Type} (m : List (String × a)) (k : String) (v : a) : List (String × a) :=
  if m.any (fun p => p.1 == k) then
    m.map (fun p => if p.1 == k then (k, v) else p)
  else
    m ++ [(k, v)]

/-- Object spread `{...m, ...b}`: every binding of `b` written over `m`. -/
def objMerge {a : Type} (m b : List (String × a)) : List (String × a) :=
  b.foldl (fun acc p => objSet acc p.1 p.2) m

/-- `delete m[k]`. -/
def objDelete {a : Type} (m : List (String × a)) (k : String) : List (String × a) :=
  m.filter (fun p => p.1 != k)

/- ### JavaScript string rendering -/

mutual

/-- JavaScript `String(value)` / `value.toString()`. -/
def jsToString : JValue → String
  | .null => "null"
  | .bool true => "true"
  | .bool false => "false"
  | .num n => Int.repr n
  | .str s => s
  | .arr xs => String.intercalate "," (jsToStringElems xs)
  | .obj _ => "[object Object]"

/-- Array elements under `Array.prototype.toString` (null elements render
as the empty string). -/
def jsToStringElems : List JValue → List String
  | [] => []
  | .null :: rest => "" :: jsToStringElems rest
  | v :: rest => jsToString v :: jsToStringElems rest

end

mutual

/-- Compact `JSON.stringify` (sufficient for the string-valued observations
made by the claims; string escaping covers quotes and backslashes). -/
def jsonStringify : JValue → String
  | .null => "null"
  | .bool true => "true"
  | .bool false => "false"
  | .num n => Int.repr n
  | .str s => "\"" ++ jsonEscape s.data ++ "\""
  | .arr xs => "[" ++ String.intercalate "," (jsonStringifyList xs) ++ "]"
  | .obj fields => "\x7b" ++ String.intercalate "," (jsonStringifyFields fields) ++ "\x7d"

def jsonStringifyList : List JValue → List String
  | [] => []
  | v :: rest => jsonStringify v :: jsonStringifyList rest

def jsonStringifyFields : List (String × JValue) → List String
  | [] => []
  | p :: rest => ("\"" ++ jsonEscape p.1.data ++ "\":" ++ jsonStringify p.2) :: jsonStringifyFields rest

def jsonEscape : List Char → String
  | [] => ""
  | c :: rest =>
    (if c = '"' then "\\\"" else if c = '\\' then "\\\\" else String.singleton c)
      ++ jsonEscape rest

end

/- ### encodeURIComponent -/

/-- Characters that JS `encodeURIComponent` leaves unescaped. -/
def uriUnreservedChar (c : Char) : Bool :=
  ('A' ≤ c && c ≤ 'Z') || ('a' ≤ c && c ≤ 'z') || ('0' ≤ c && c ≤ '9') ||
  c = '-' || c = '_' || c = '.' || c = '!' || c = '~' || c = '*' ||
  c = Char.ofNat 39 || c = '(' || c = ')'

/-- Upper-case hexadecimal digit (input taken mod 16). -/
def hexDigit (n : Nat) : Char :=
  let m := n % 16
  if m < 10 then Char.ofNat (48 + m) else Char.ofNat (55 + m)

/-- `%HH` escape of one byte. -/
def percentByte (b : Nat) : List Char := ['%', hexDigit (b / 16), hexDigit (b % 16)]

/-- UTF-8 bytes of a character. -/
def utf8Bytes (c : Char) : List Nat :=
  let n := c.toNat
  if n < 128 then [n]
  else if n < 2048 then [192 + n / 64, 128 + n % 64]
  else if n < 65536 then [224 + n / 4096, 128 + (n / 64) % 64, 128 + n % 64]
  else [240 + n / 262144, 128 + (n / 4096) % 64, 128 + (n / 64) % 64, 128 + n % 64]

/-- One character under `encodeURIComponent`. -/
def encodeURIComponentChar (c : Char) : List Char :=
  if uriUnreservedChar c then [c] else ((utf8Bytes c).map percentByte).flatten

/-- JS `encodeURIComponent`. -/
def encodeURIComponent (s : String) : String :=
  String.mk ((s.data.map encodeURIComponentChar).flatten)

/- ### Errors thrown by the engine -/

/-- Structured form of the `Error`s thrown by the engine; `renderError`
recovers the exact message strings of the source. -/
inductive PicaError where
  | missingPathVariable (name : String) : PicaError
  | missingPathVariables (names : List String) : PicaError
  | connectionNotFound (platform : String) : PicaError
deriving Repr, DecidableEq

/-- The `Error` message text used by the source for each throw site. -/
def renderError : PicaError → String
  | .missingPathVariable name => "Missing value for path variable: " ++ name
  | .missingPathVariables names =>
      "Missing required path variables: " ++ String.intercalate ", " names ++
      ". Please provide values for these variables."
  | .connectionNotFound platform =>
      "Connection not found. Please add a " ++ platform ++ " connection first."

example : jsToString (.num 42) = "42" := by decide
example : encodeURIComponent "a b" = "a%20b" := by decide
example : encodeURIComponent "42" = "42" := by decide

/-- Decidable equality of `Except` results, used to evaluate the engine on
concrete inputs. -/
instance {e a : Type} [DecidableEq e] [DecidableEq a] : DecidableEq (Except e a) := fun x y =>
  match x, y with
  | .ok u, .ok v =>
    if h : u = v then .isTrue (by rw [h]) else .isFalse (fun hh => h (Except.ok.inj hh))
  | .error u, .error v =>
    if h : u = v then .isTrue (by rw [h]) else .isFalse (fun hh => h (Except.error.inj hh))
  | .ok _, .error _ => .isFalse (fun h => Except.noConfusion h)
  | .error _, .ok _ => .isFalse (fun h => Except.noConfusion h)

/- ### List helper used for termination of the scanners -/

theorem dropWhile_length_le {α} (p : α → Bool) :
    ∀ l : List α, (l.dropWhile p).length ≤ l.length
  | [] => Nat.le_refl _
  | a :: l => by
    rw [List.dropWhile]
    split
    · exact Nat.le_trans (dropWhile_length_le p l) (Nat.le_succ _)
    · exact Nat.le_refl _

/- ### Kernel-computable string primitives

`String.trim`, `String.toLower` and `String.startsWith` are implemented in
core via byte-position loops that the kernel cannot evaluate, so the JS
operations are modelled directly on the character list. -/

/-- JS `String.prototype.trim` (used on the captured placeholder name). -/
def jsTrim (s : String) : String :=
  String.mk (((s.data.dropWhile Char.isWhitespace).reverse.dropWhile
    Char.isWhitespace).reverse)

/-- JS `String.prototype.toLowerCase` (ASCII, as used on HTTP verbs). -/
def jsToLower (s : String) : String :=
  String.mk (s.data.map Char.toLower)

/-- JS `String.prototype.startsWith('/')`. -/
def startsWithSlash (s : String) : Bool :=
  s.data.head? = some '/'

/- ### Connections and client state -/

/-- A stored credential binding (`Connection` in the source). -/
structure Connection where
  key : String
  platform : String
  active : Bool
deriving Repr, DecidableEq

/-- An available connector (`ConnectionDefinition` in the source). -/
structure ConnectionDefinition where
  name : String
  key : String
  platform : String
  platformVersion : String
  description : String
  category : String
  image : String
  tags : List String
  oauth : Bool
  createdAt : Int
  updatedAt : Int
  updated : Bool
  version : String
  lastModifiedBy : String
  deleted : Bool
  active : Bool
  deprecated : Bool
deriving Repr, DecidableEq

/-- The state of a `PicaClient` instance. -/
structure PicaClient where
  secret : String
  baseUrl : String := "https://api.picaos.com"
  connections : List Connection := []
  connectionDefinitions : List ConnectionDefinition := []
deriving Repr, DecidableEq

/-- `PicaClient.generateHeaders` (identical in every variant). -/
def PicaClient.generateHeaders (client : PicaClient) : List (String × String) :=
  [("Content-Type", "application/json"), ("x-pica-secret", client.secret)]

/-- `PicaClient.getConnections`. -/
def PicaClient.getConnections (client : PicaClient) : List Connection :=
  client.connections

/-- `PicaClient.refreshConnections`.  The axios call is external, so its
outcome is an explicit argument: `.error` models a thrown network error,
`.ok none` a response carrying no `rows` field (`response.data?.rows || []`),
`.ok (some rows)` a well-formed response.  Returns the next client state
together with the value returned to the caller. -/
def PicaClient.refreshConnections (client : PicaClient)
    (fetchResult : Except String (Option (List Connection))) :
    PicaClient × List Connection :=
  match fetchResult with
  | .ok rows =>
    let conns := rows.getD []
    ({ client with connections := conns }, conns)
  | .error _ => (client, client.connections)


/- ### The two `replacePathVariables` scanners

The source regex is `/\{\{([^}]+)\}\}/g`: a match is two opening braces, a
non-empty run of characters other than `\x7d`, then two closing braces.  On a
match the engine substitutes and the scan resumes after the match;
otherwise the scan advances one character.  The scanners below take a fuel
argument so that they are structurally recursive (and hence evaluate
inside the kernel); every step consumes exactly one unit of fuel and at
least one character, so fuel `cs.length` always suffices and the
`0`-fuel fallback is unreachable from the wrappers. -/

namespace Route

/-- Fueled scanner of `replacePathVariables` in `route.ts` / `part_002` /
`part_005`: trims the captured name, rejects `undefined`/`null`/empty
string, substitutes `encodeURIComponent(value.toString())`. -/
def rpvFuel (vars : List (String × JValue)) : Nat → List Char → Except PicaError (List Char)
  | _, [] => .ok []
  | 0, cs => .ok cs
  | fuel + 1, c :: rest =>
    if c = '{' ∧ rest.head? = some '{' then
      let name := rest.tail.takeWhile (fun d => d ≠ '}')
      let after := rest.tail.dropWhile (fun d => d ≠ '}')
      if name ≠ [] ∧ after.take 2 = ['}', '}'] then
        let key := jsTrim (String.mk name)
        match objGet vars key with
        | none => .error (.missingPathVariable key)
        | some v =>
          if v = JValue.null ∨ v = JValue.str "" then .error (.missingPathVariable key)
          else (rpvFuel vars fuel (after.drop 2)).map
            (fun t => (encodeURIComponent (jsToString v)).data ++ t)
      else (rpvFuel vars fuel rest).map (fun t => c :: t)
    else (rpvFuel vars fuel rest).map (fun t => c :: t)

/-- The scanner at its canonical fuel. -/
def rpvAux (vars : List (String × JValue)) (cs : List Char) : Except PicaError (List Char) :=
  rpvFuel vars cs.length cs

/-- Fuel does not matter as long as it is at least the input length. -/
theorem rpvFuel_irrel (vars : List (String × JValue)) :
    ∀ (f g : Nat) (cs : List Char), cs.length ≤ f → cs.length ≤ g →
      rpvFuel vars f cs = rpvFuel vars g cs := by
  intro f
  induction f with
  | zero =>
    intro g cs hf _
    cases cs with
    | nil => cases g <;> rfl
    | cons c rest => simp at hf
  | succ f IH =>
    intro g cs hf hg
    cases cs with
    | nil => cases g <;> rfl
    | cons c rest =>
      cases g with
      | zero => simp at hg
      | succ g =>
        have hf2 : rest.length ≤ f := by simpa using hf
        have hg2 : rest.length ≤ g := by simpa using hg
        simp only [rpvFuel]
        by_cases h1 : c = '{' ∧ rest.head? = some '{'
        · simp only [if_pos h1]
          by_cases h2 : rest.tail.takeWhile (fun d => d ≠ '}') ≠ [] ∧
              (rest.tail.dropWhile (fun d => d ≠ '}')).take 2 = ['}', '}']
          · simp only [if_pos h2]
            cases hv : objGet vars (jsTrim (String.mk (rest.tail.takeWhile (fun d => d ≠ '}')))) with
            | none => rfl
            | some v =>
              by_cases h3 : v = JValue.null ∨ v = JValue.str ""
              · simp [h3]
              · simp only [if_neg h3]
                have hlen : ((rest.tail.dropWhile (fun d => d ≠ '}')).drop 2).length ≤ f := by
                  have ha : ((rest.tail.dropWhile (fun d => d ≠ '}'))).length ≤ rest.tail.length :=
                    dropWhile_length_le _ _
                  have hb : rest.tail.length ≤ rest.length := by
                    cases rest <;> simp [List.tail]
                  simp only [List.length_drop]
                  omega
                have hlen2 : ((rest.tail.dropWhile (fun d => d ≠ '}')).drop 2).length ≤ g := by
                  have ha : ((rest.tail.dropWhile (fun d => d ≠ '}'))).length ≤ rest.tail.length :=
                    dropWhile_length_le _ _
                  have hb : rest.tail.length ≤ rest.length := by
                    cases rest <;> simp [List.tail]
                  simp only [List.length_drop]
                  omega
                rw [IH g _ hlen hlen2]
          · simp only [if_neg h2]
            rw [IH g rest hf2 hg2]
        · simp only [if_neg h1]
          rw [IH g rest hf2 hg2]

/-- Unfolding equation for `rpvAux` at a cons cell. -/
theorem rpvAux_cons (vars : List (String × JValue)) (c : Char) (rest : List Char) :
    rpvAux vars (c :: rest) =
      (if c = '{' ∧ rest.head? = some '{' then
        let name := rest.tail.takeWhile (fun d => d ≠ '}')
        let after := rest.tail.dropWhile (fun d => d ≠ '}')
        if name ≠ [] ∧ after.take 2 = ['}', '}'] then
          let key := jsTrim (String.mk name)
          match objGet vars key with
          | none => .error (.missingPathVariable key)
          | some v =>
            if v = JValue.null ∨ v = JValue.str "" then .error (.missingPathVariable key)
            else (rpvAux vars (after.drop 2)).map
              (fun t => (encodeURIComponent (jsToString v)).data ++ t)
        else (rpvAux vars rest).map (fun t => c :: t)
      else (rpvAux vars rest).map (fun t => c :: t)) := by
  show rpvFuel vars (rest.length + 1) (c :: rest) = _
  simp only [rpvFuel]
  by_cases h1 : c = '{' ∧ rest.head? = some '{'
  · simp only [if_pos h1]
    by_cases h2 : rest.tail.takeWhile (fun d => d ≠ '}') ≠ [] ∧
        (rest.tail.dropWhile (fun d => d ≠ '}')).take 2 = ['}', '}']
    · simp only [if_pos h2]
      cases hv : objGet vars (jsTrim (String.mk (rest.tail.takeWhile (fun d => d ≠ '}')))) with
      | none => rfl
      | some v =>
        by_cases h3 : v = JValue.null ∨ v = JValue.str ""
        · simp [h3]
        · simp only [if_neg h3]
          have hlen : ((rest.tail.dropWhile (fun d => d ≠ '}')).drop 2).length ≤ rest.length := by
            have ha : ((rest.tail.dropWhile (fun d => d ≠ '}'))).length ≤ rest.tail.length :=
              dropWhile_length_le _ _
            have hb : rest.tail.length ≤ rest.length := by
              cases rest <;> simp [List.tail]
            simp only [List.length_drop]
            omega
          rw [rpvFuel_irrel vars rest.length _ _ hlen (Nat.le_refl _)]
          rfl
    · simp only [if_neg h2]
      rw [rpvFuel_irrel vars rest.length rest.length rest (Nat.le_refl _) (Nat.le_refl _)]
      rfl
  · simp only [if_neg h1]
    rfl

/-- `PicaClient.replacePathVariables` in `route.ts` / `part_002` /
`part_005` (the `if (!path) return path;` guard is the empty-string test,
since the parameter is typed `string`). -/
def replacePathVariables (path : String) (vars : List (String × JValue)) :
    Except PicaError String :=
  if path = "" then .ok path
  else (rpvAux vars path.data).map String.mk

end Route

namespace Legacy

/-- Fueled scanner of `replacePathVariables` in `src/index.ts`: no
trimming, the `if (!value)` truthiness test (which also rejects `0` and
`false`), and the raw `value.toString()` substitution without
percent-encoding. -/
def rpvFuel (vars : List (String × JValue)) : Nat → List Char → Except PicaError (List Char)
  | _, [] => .ok []
  | 0, cs => .ok cs
  | fuel + 1, c :: rest =>
    if c = '{' ∧ rest.head? = some '{' then
      let name := rest.tail.takeWhile (fun d => d ≠ '}')
      let after := rest.tail.dropWhile (fun d => d ≠ '}')
      if name ≠ [] ∧ after.take 2 = ['}', '}'] then
        let key := String.mk name
        if jTruthy (objGet vars key) then
          match objGet vars key with
          | none => .error (.missingPathVariable key)
          | some v =>
            (rpvFuel vars fuel (after.drop 2)).map (fun t => (jsToString v).data ++ t)
        else .error (.missingPathVariable key)
      else (rpvFuel vars fuel rest).map (fun t => c :: t)
    else (rpvFuel vars fuel rest).map (fun t => c :: t)

/-- The legacy scanner at its canonical fuel. -/
def rpvAux (vars : List (String × JValue)) (cs : List Char) : Except PicaError (List Char) :=
  rpvFuel vars cs.length cs

/-- `PicaClient.replacePathVariables` in `src/index.ts`. -/
def replacePathVariables (path : String) (vars : List (String × JValue)) :
    Except PicaError String :=
  (rpvAux vars path.data).map String.mk

end Legacy

example : Route.replacePathVariables "/users/\x7b\x7bid\x7d\x7d" [("id", .num 42)]
    = .ok "/users/42" := by decide
example : Route.replacePathVariables "/u/\x7b\x7b id \x7d\x7d" [("id", .str "a b")]
    = .ok "/u/a%20b" := by decide
example : Route.replacePathVariables "/u/\x7b\x7bid\x7d\x7d" [("id", .num 0)]
    = .ok "/u/0" := by decide
example : Legacy.replacePathVariables "/u/\x7b\x7bid\x7d\x7d" [("id", .num 0)]
    = .error (.missingPathVariable "id") := by decide
example : Legacy.replacePathVariables "/u/\x7b\x7bid\x7d\x7d" [("id", .str "a b")]
    = .ok "/u/a b" := by decide

/- ### Request assembly -/

/-- The encoded request body (`requestConfig.data`). -/
inductive BodyData where
  | raw (j : JValue) : BodyData
  | form (parts : List (String × String)) : BodyData
  | urlencoded (parts : List (String × String)) : BodyData
deriving Repr, DecidableEq

/-- The assembled axios request configuration (`requestConfig`).  A JS
property holding `undefined` is indistinguishable from an absent one for
every observation the engine makes, so `params`/`data` are `Option`s. -/
structure RequestConfig where
  url : String
  method : String
  headers : List (String × String)
  params : Option (List (String × JValue))
  data : Option BodyData
deriving Repr, DecidableEq

/-- The caller-supplied arguments of `executeAction` /
`generateRequestConfig` (optional JS parameters are `Option`s; the two
boolean flags are read only for truthiness, so `none` and `false`
coincide). -/
structure ExecuteArgs where
  actionId : String
  connectionKey : String
  method : String
  path : String
  data : Option JValue := none
  pathVariables : Option (List (String × JValue)) := none
  queryParams : Option (List (String × JValue)) := none
  headers : Option (List (String × String)) := none
  isFormData : Bool := false
  isFormUrlEncoded : Bool := false
deriving Repr, DecidableEq

/-- The multipart branch: `Object.entries(data).forEach` appending each
field, `JSON.stringify` for `typeof value === 'object'` (which in JS
includes `null` and arrays) and plain string coercion otherwise; a payload
that is not a truthy non-array object leaves the form empty. -/
def formParts (data : Option JValue) : List (String × String) :=
  match data with
  | some (.obj fields) =>
    fields.map (fun p => (p.1,
      match p.2 with
      | .obj _ => jsonStringify p.2
      | .arr _ => jsonStringify p.2
      | .null => jsonStringify p.2
      | v => jsToString v))
  | _ => []

/-- The `URLSearchParams` branch, built from the same field loop with
`String(value)` coercion for non-objects. -/
def urlencodedParts (data : Option JValue) : List (String × String) :=
  match data with
  | some (.obj fields) =>
    fields.map (fun p => (p.1,
      match p.2 with
      | .obj _ => jsonStringify p.2
      | .arr _ => jsonStringify p.2
      | .null => jsonStringify p.2
      | v => jsToString v))
  | _ => []

/-- The `content-type` header that `form-data`'s `getHeaders()` yields
(the boundary is chosen by the library at run time and is passed in). -/
def formDataHeader (boundary : String) : String :=
  "multipart/form-data; boundary=" ++ boundary

namespace Route

/-- `PicaClient.executeAction` in `route.ts` / `part_002` / `part_005`, up
to but not including the `axios(requestConfig)` network call: the value is
the `requestConfig` that would be sent, or the error thrown while
assembling it. -/
def executeAction (client : PicaClient) (boundary : String) (args : ExecuteArgs) :
    Except PicaError RequestConfig :=
  let newHeaders :=
    let h0 := client.generateHeaders
    let h1 := objSet (objSet h0 "x-pica-connection-key" args.connectionKey)
      "x-pica-action-id" args.actionId
    let h2 := if args.isFormData then objSet h1 "Content-Type" "multipart/form-data" else h1
    let h3 := if args.isFormUrlEncoded then
        objSet h2 "Content-Type" "application/x-www-form-urlencoded"
      else h2
    objMerge h3 (args.headers.getD [])
  match (match args.pathVariables with
    | some vars => replacePathVariables args.path vars
    | none => .ok args.path) with
  | .error e => .error e
  | .ok resolvedPath =>
    let url := client.baseUrl ++ "/v1/passthrough" ++
      (if startsWithSlash resolvedPath then resolvedPath else "/" ++ resolvedPath)
    if jsToLower args.method ≠ "get" then
      if args.isFormData then
        .ok { url := url, method := args.method,
              headers := objMerge newHeaders [("content-type", formDataHeader boundary)],
              params := args.queryParams,
              data := some (.form (formParts args.data)) }
      else if args.isFormUrlEncoded then
        .ok { url := url, method := args.method, headers := newHeaders,
              params := args.queryParams,
              data := some (.urlencoded (urlencodedParts args.data)) }
      else
        .ok { url := url, method := args.method, headers := newHeaders,
              params := args.queryParams,
              data := args.data.map BodyData.raw }
    else
      .ok { url := url, method := args.method, headers := newHeaders,
            params := args.queryParams, data := none }

/-- `PicaClient.generateRequestConfig` in `route.ts` / `part_005`: the
same assembly, returned instead of sent (the source repeats the code of
`executeAction` nearly verbatim). -/
def generateRequestConfig (client : PicaClient) (boundary : String) (args : ExecuteArgs) :
    Except PicaError RequestConfig :=
  let newHeaders :=
    let h0 := client.generateHeaders
    let h1 := objSet (objSet h0 "x-pica-connection-key" args.connectionKey)
      "x-pica-action-id" args.actionId
    let h2 := if args.isFormData then objSet h1 "Content-Type" "multipart/form-data" else h1
    let h3 := if args.isFormUrlEncoded then
        objSet h2 "Content-Type" "application/x-www-form-urlencoded"
      else h2
    objMerge h3 (args.headers.getD [])
  match (match args.pathVariables with
    | some vars => replacePathVariables args.path vars
    | none => .ok args.path) with
  | .error e => .error e
  | .ok resolvedPath =>
    let url := client.baseUrl ++ "/v1/passthrough" ++
      (if startsWithSlash resolvedPath then resolvedPath else "/" ++ resolvedPath)
    if jsToLower args.method ≠ "get" then
      if args.isFormData then
        .ok { url := url, method := args.method,
              headers := objMerge newHeaders [("content-type", formDataHeader boundary)],
              params := args.queryParams,
              data := some (.form (formParts args.data)) }
      else if args.isFormUrlEncoded then
        .ok { url := url, method := args.method, headers := newHeaders,
              params := args.queryParams,
              data := some (.urlencoded (urlencodedParts args.data)) }
      else
        .ok { url := url, method := args.method, headers := newHeaders,
              params := args.queryParams,
              data := args.data.map BodyData.raw }
    else
      .ok { url := url, method := args.method, headers := newHeaders,
            params := args.queryParams, data := none }

end Route

namespace Legacy

/-- `PicaClient.executeAction` in `src/index.ts`, up to the network call;
identical assembly except that it uses the legacy path resolver. -/
def executeAction (client : PicaClient) (boundary : String) (args : ExecuteArgs) :
    Except PicaError RequestConfig :=
  let newHeaders :=
    let h0 := client.generateHeaders
    let h1 := objSet (objSet h0 "x-pica-connection-key" args.connectionKey)
      "x-pica-action-id" args.actionId
    let h2 := if args.isFormData then objSet h1 "Content-Type" "multipart/form-data" else h1
    let h3 := if args.isFormUrlEncoded then
        objSet h2 "Content-Type" "application/x-www-form-urlencoded"
      else h2
    objMerge h3 (args.headers.getD [])
  match (match args.pathVariables with
    | some vars => replacePathVariables args.path vars
    | none => .ok args.path) with
  | .error e => .error e
  | .ok resolvedPath =>
    let url := client.baseUrl ++ "/v1/passthrough" ++
      (if startsWithSlash resolvedPath then resolvedPath else "/" ++ resolvedPath)
    if jsToLower args.method ≠ "get" then
      if args.isFormData then
        .ok { url := url, method := args.method,
              headers := objMerge newHeaders [("content-type", formDataHeader boundary)],
              params := args.queryParams,
              data := some (.form (formParts args.data)) }
      else if args.isFormUrlEncoded then
        .ok { url := url, method := args.method, headers := newHeaders,
              params := args.queryParams,
              data := some (.urlencoded (urlencodedParts args.data)) }
      else
        .ok { url := url, method := args.method, headers := newHeaders,
              params := args.queryParams,
              data := args.data.map BodyData.raw }
    else
      .ok { url := url, method := args.method, headers := newHeaders,
            params := args.queryParams, data := none }

end Legacy

/- ### The `generate_action_config_knowledge` handler -/

/-- Fueled mirror of `action.path.match(/\{\{([^}]+)\}\}/g)`: the list of
full matches, in scan order (the JS call returns `null` when this list is
empty). -/
def etvFuel : Nat → List Char → List (List Char)
  | _, [] => []
  | 0, _ => []
  | fuel + 1, c :: rest =>
    if c = '{' ∧ rest.head? = some '{' then
      let name := rest.tail.takeWhile (fun d => d ≠ '}')
      let after := rest.tail.dropWhile (fun d => d ≠ '}')
      if name ≠ [] ∧ after.take 2 = ['}', '}'] then
        ('{' :: '{' :: (name ++ ['}', '}'])) :: etvFuel fuel (after.drop 2)
      else etvFuel fuel rest
    else etvFuel fuel rest

/-- The match list at its canonical fuel. -/
def extractTemplateVars (cs : List Char) : List (List Char) :=
  etvFuel cs.length cs

/-- `v.replace(/\{\{|\}\}/g, '')` applied to a full match: removes double
braces scanning left to right. -/
def stripDbl : List Char → List Char
  | '{' :: '{' :: rest => stripDbl rest
  | '}' :: '}' :: rest => stripDbl rest
  | c :: rest => c :: stripDbl rest
  | [] => []

/-- Object spread `{...data}` of an arbitrary JS value: objects contribute
their fields, strings and arrays contribute index-keyed entries, all other
values contribute nothing. -/
def spreadFields (data : Option JValue) : List (String × JValue) :=
  match data with
  | some (.obj fields) => fields
  | some (.str s) => s.data.enum.map (fun p => (Nat.repr p.1, JValue.str (String.singleton p.2)))
  | some (.arr xs) => xs.enum.map (fun p => (Nat.repr p.1, p.2))
  | _ => []

/-- `requiredVariables`: the matches with every `\x7b\x7b`/`\x7d\x7d` removed
(note: the name is *not* trimmed here, unlike in `replacePathVariables`). -/
def requiredVariablesOf (path : String) : List String :=
  (extractTemplateVars path.data).map (fun m => String.mk (stripDbl m))

/-- `Array.isArray(data) ? {} : (data || {})` as a spread base. -/
def combinedBase (data : Option JValue) : List (String × JValue) :=
  match data with
  | some (.arr _) => []
  | _ => spreadFields data

/-- `!Array.isArray(data) && data`: the guard of the clean-up loop. -/
def dataSpreadable (data : Option JValue) : Bool :=
  match data with
  | some (.arr _) => false
  | _ => jTruthy data

/-- `combinedVariables = {...(Array.isArray(data) ? {} : (data || {})), ...(pathVariables || {})}`. -/
def combinedVariablesOf (data : Option JValue)
    (pathVariables : Option (List (String × JValue))) : List (String × JValue) :=
  objMerge (combinedBase data) (pathVariables.getD [])

/-- `missingVariables = requiredVariables.filter(v => !combinedVariables[v])`
— a truthiness test, so a present-but-falsy value also counts as missing. -/
def missingVariablesOf (path : String) (data : Option JValue)
    (pathVariables : Option (List (String × JValue))) : List String :=
  (requiredVariablesOf path).filter
    (fun v => ! jTruthy (objGet (combinedVariablesOf data pathVariables) v))

/-- `!pathVariables || !pathVariables[v]`: the caller did not supply a
truthy explicit value for `v`. -/
def pvAllows (pathVariables : Option (List (String × JValue))) (v : String) : Bool :=
  match pathVariables with
  | none => true
  | some pv => ! jTruthy (objGet pv v)

/-- One iteration of the clean-up loop: if `finalData[v]` is truthy and the
caller did not supply a truthy `pathVariables[v]`, move the field from the
body into the path-variable map (`finalPathVariables[v] = finalData[v];
delete finalData[v]`). -/
def promoteStep (pathVariables : Option (List (String × JValue)))
    (st : List (String × JValue) × List (String × JValue)) (v : String) :
    List (String × JValue) × List (String × JValue) :=
  if jTruthy (objGet st.1 v) && pvAllows pathVariables v then
    (objDelete st.1 v, objSet st.2 v ((objGet st.1 v).getD .null))
  else st

/-- The final step of the path-handling block: resolve the path against
the final path-variable map and return the partition triple. -/
def partitionFinish (path : String) (st : Option JValue × List (String × JValue)) :
    Except PicaError (String × Option JValue × List (String × JValue)) :=
  match Route.replacePathVariables path st.2 with
  | .error e => .error e
  | .ok resolvedPath => .ok (resolvedPath, st.1, st.2)

/-- The path-handling block of the `generate_action_config_knowledge`
handler (`route.ts` lines 610-644, identical in `part_002`/`part_005`):
extracts the template variables, reports every variable whose combined
lookup is falsy, moves promoted fields out of a truthy non-array `data`,
and resolves the path.  Returns `(resolvedPath, finalData,
finalPathVariables)`. -/
def partitionPathVars (path : String) (data : Option JValue)
    (pathVariables : Option (List (String × JValue))) :
    Except PicaError (String × Option JValue × List (String × JValue)) :=
  let templateVariables := extractTemplateVars path.data
  if templateVariables = [] then
    .ok (path, data, pathVariables.getD [])
  else
    let requiredVariables := requiredVariablesOf path
    let missingVariables := missingVariablesOf path data pathVariables
    if missingVariables ≠ [] then
      .error (.missingPathVariables missingVariables)
    else
      partitionFinish path
        (if dataSpreadable data then
          let st1 := requiredVariables.foldl (promoteStep pathVariables)
            (spreadFields data, pathVariables.getD [])
          (some (JValue.obj st1.1), st1.2)
        else (data, pathVariables.getD []))

/-- The caller-supplied arguments of `generate_action_config_knowledge`
(`action` is flattened into its `_id` and `path` fields). -/
structure GenerateArgs where
  platform : String
  actionId : String
  actionPath : String
  method : String
  connectionKey : String
  data : Option JValue := none
  pathVariables : Option (List (String × JValue)) := none
  queryParams : Option (List (String × JValue)) := none
  headers : Option (List (String × String)) := none
  isFormData : Bool := false
  isFormUrlEncoded : Bool := false
deriving Repr, DecidableEq

namespace Route

/-- The `generate_action_config_knowledge` tool handler: checks that the
connection key exists (ignoring `active`), partitions and resolves the
path, and builds the request configuration without executing it.  The
returned value is the `requestConfig` embedded in the success envelope
(and serialized verbatim into the rendered TypeScript sample). -/
def generateActionConfigKnowledge (client : PicaClient) (boundary : String)
    (args : GenerateArgs) : Except PicaError RequestConfig :=
  if ! client.connections.any (fun conn => conn.key == args.connectionKey) then
    .error (.connectionNotFound args.platform)
  else
    match partitionPathVars args.actionPath args.data args.pathVariables with
    | .error e => .error e
    | .ok (resolvedPath, finalData, finalPathVariables) =>
      generateRequestConfig client boundary
        { actionId := args.actionId, connectionKey := args.connectionKey,
          method := args.method, path := resolvedPath, data := finalData,
          pathVariables := some finalPathVariables, queryParams := args.queryParams,
          headers := args.headers, isFormData := args.isFormData,
          isFormUrlEncoded := args.isFormUrlEncoded }

end Route

example :
    partitionPathVars "/users/\x7b\x7bid\x7d\x7d"
      (some (.obj [("id", .num 42), ("name", .str "a")])) none
    = .ok ("/users/42", some (.obj [("name", .str "a")]), [("id", .num 42)]) := by decide

example :
    partitionPathVars "/users/\x7b\x7bid\x7d\x7d" (some (.obj [("name", .str "a")])) none
    = .error (.missingPathVariables ["id"]) := by decide

/- ### Lemmas about the object-map operations -/

theorem objGet_cons {a : Type} (p : String × a) (m : List (String × a)) (k : String) :
    objGet (p :: m) k = if p.1 == k then some p.2 else objGet m k := by
  by_cases h : p.1 == k
  · simp [objGet, List.find?, h]
  · simp [objGet, List.find?, h]

theorem objGet_eq_none_of_not_mem {a : Type} (b : List (String × a)) (k : String)
    (h : k ∉ b.map Prod.fst) : objGet b k = none := by
  induction b with
  | nil => rfl
  | cons q b IH =>
    rw [List.map_cons, List.mem_cons, not_or] at h
    rw [objGet_cons, if_neg (by simpa using fun hh : q.1 = k => h.1 hh.symm)]
    exact IH h.2

theorem objGet_map_overwrite {a : Type} (m : List (String × a)) (k : String) (v : a)
    (k' : String) (h : k' ≠ k) :
    objGet (m.map (fun q => if q.1 == k then (k, v) else q)) k' = objGet m k' := by
  induction m with
  | nil => rfl
  | cons q m IH =>
    by_cases hq : q.1 == k
    · have hq' : q.1 = k := by simpa using hq
      simp only [List.map_cons, if_pos hq, objGet_cons]
      rw [if_neg (by simpa using Ne.symm h), if_neg (by simp [hq']; exact fun hh => h hh.symm),
        IH]
    · simp only [List.map_cons, if_neg hq, objGet_cons]
      by_cases hk : q.1 == k'
      · rw [if_pos hk, if_pos hk]
      · rw [if_neg hk, if_neg hk, IH]

theorem objGet_map_overwrite_self {a : Type} (m : List (String × a)) (k : String) (v : a)
    (h : m.any (fun q => q.1 == k) = true) :
    objGet (m.map (fun q => if q.1 == k then (k, v) else q)) k = some v := by
  induction m with
  | nil => simp at h
  | cons q m IH =>
    by_cases hq : q.1 == k
    · simp only [List.map_cons, if_pos hq, objGet_cons]
      simp
    · have h2 : m.any (fun q => q.1 == k) = true := by
        rw [List.any_cons] at h
        rcases Bool.or_eq_true_iff.mp h with h | h
        · exact absurd h hq
        · exact h
      simp only [List.map_cons, if_neg hq, objGet_cons, if_neg hq]
      exact IH h2

theorem objGet_append_single_self {a : Type} (m : List (String × a)) (k : String) (v : a)
    (h : m.any (fun q => q.1 == k) = false) :
    objGet (m ++ [(k, v)]) k = some v := by
  induction m with
  | nil => simp [objGet_cons]
  | cons q m IH =>
    rw [List.any_cons, Bool.or_eq_false_iff] at h
    rw [List.cons_append, objGet_cons, if_neg (by simp [h.1])]
    exact IH h.2

theorem objGet_append_single_ne {a : Type} (m : List (String × a)) (k : String) (v : a)
    (k' : String) (h : k' ≠ k) :
    objGet (m ++ [(k, v)]) k' = objGet m k' := by
  induction m with
  | nil =>
    rw [List.nil_append, objGet_cons, if_neg (by simpa using Ne.symm h)]
  | cons q m IH =>
    rw [List.cons_append, objGet_cons, objGet_cons, IH]

/-- The full characterization of `objSet` under lookup. -/
theorem objGet_set {a : Type} (m : List (String × a)) (k : String) (v : a) (k' : String) :
    objGet (objSet m k v) k' = if k' = k then some v else objGet m k' := by
  by_cases hany : m.any (fun q => q.1 == k) = true
  · rw [objSet, if_pos hany]
    by_cases h : k' = k
    · rw [if_pos h, h]
      exact objGet_map_overwrite_self m k v hany
    · rw [if_neg h]
      exact objGet_map_overwrite m k v k' h
  · rw [objSet, if_neg hany]
    by_cases h : k' = k
    · rw [if_pos h, h]
      exact objGet_append_single_self m k v (Bool.eq_false_iff.mpr hany)
    · rw [if_neg h]
      exact objGet_append_single_ne m k v k' h

/-- The full characterization of `objDelete` under lookup. -/
theorem objGet_delete {a : Type} (m : List (String × a)) (k k' : String) :
    objGet (objDelete m k) k' = if k' = k then none else objGet m k' := by
  induction m with
  | nil => by_cases h : k' = k <;> simp [objDelete, objGet, h]
  | cons q m IH =>
    rw [objDelete, List.filter_cons]
    rw [objDelete] at IH
    by_cases hq : q.1 == k
    · have hq2 : (q.1 != k) = false := by simp [bne, hq]
      rw [hq2, if_neg (by simp), IH]
      by_cases h : k' = k
      · rw [if_pos h, if_pos h]
      · have hq' : q.1 = k := by simpa using hq
        rw [if_neg h, if_neg h, objGet_cons,
          if_neg (by simp [hq']; exact fun hh => h hh.symm)]
    · have hq2 : (q.1 != k) = true := by simp [bne]; simpa using hq
      rw [if_pos hq2, objGet_cons, IH, objGet_cons]
      by_cases hk : q.1 == k'
      · have hk' : k' ≠ k := by
          have : q.1 = k' := by simpa using hk
          simpa [this] using hq
        simp [hk, hk']
      · simp [hk]

theorem objMerge_nil {a : Type} (m : List (String × a)) : objMerge m [] = m := rfl

theorem objMerge_cons {a : Type} (m : List (String × a)) (p : String × a)
    (b : List (String × a)) :
    objMerge m (p :: b) = objMerge (objSet m p.1 p.2) b := rfl

theorem objGet_merge_of_none {a : Type} (b m : List (String × a)) (k : String)
    (h : objGet b k = none) :
    objGet (objMerge m b) k = objGet m k := by
  induction b generalizing m with
  | nil => rfl
  | cons p b IH =>
    rw [objGet_cons] at h
    by_cases hp : p.1 == k
    · rw [if_pos hp] at h
      exact absurd h (by simp)
    · rw [if_neg hp] at h
      rw [objMerge_cons, IH _ h, objGet_set, if_neg (by simpa using fun hh : k = p.1 => hp (by simp [hh]))]

theorem objGet_merge_of_some {a : Type} (b m : List (String × a)) (k : String) (v : a)
    (hnd : (b.map Prod.fst).Nodup) (h : objGet b k = some v) :
    objGet (objMerge m b) k = some v := by
  induction b generalizing m with
  | nil => simp [objGet] at h
  | cons p b IH =>
    rw [objGet_cons] at h
    rw [List.map_cons, List.nodup_cons] at hnd
    by_cases hp : p.1 == k
    · rw [if_pos hp] at h
      have hp' : p.1 = k := by simpa using hp
      have hb : objGet b k = none := objGet_eq_none_of_not_mem b k (hp' ▸ hnd.1)
      rw [objMerge_cons, objGet_merge_of_none _ _ _ hb, objGet_set, if_pos hp'.symm]
      exact h
    · rw [if_neg hp] at h
      rw [objMerge_cons]
      exact IH _ hnd.2 h

/- ### Concrete instances used by the claim theorems -/

def c1client : PicaClient :=
  { secret := "sk-live-secret-123",
    connections := [{ key := "github-conn-1", platform := "github", active := true }] }

def c1args : GenerateArgs :=
  { platform := "github", actionId := "act-1", actionPath := "/issues",
    method := "post", connectionKey := "github-conn-1" }

def c3client : PicaClient :=
  { secret := "sk",
    connections := [{ key := "good-key", platform := "github", active := true }] }

def c3args : ExecuteArgs :=
  { actionId := "act-1", connectionKey := "nonexistent-key", method := "post", path := "/x" }

def c3genArgs : GenerateArgs :=
  { platform := "github", actionId := "act-1", actionPath := "/x",
    method := "post", connectionKey := "nonexistent-key" }

def c9client : PicaClient := { secret := "sk" }

def c9args : ExecuteArgs :=
  { actionId := "a", connectionKey := "k", method := "GeT", path := "/x",
    data := some (.obj [("a", .num 1)]), isFormData := true }

def emptyConfig : RequestConfig :=
  { url := "", method := "", headers := [], params := none, data := none }

def c9cfgRoute : RequestConfig :=
  (Route.executeAction c9client "B" c9args).toOption.getD emptyConfig

def c9cfgLegacy : RequestConfig :=
  (Legacy.executeAction c9client "B" c9args).toOption.getD emptyConfig

/- ### Claim theorems -/

/-- C1: the claim says generate-mode output never contains the configured
secret and that the authentication header is replaced by an
environment-variable sentinel.  The code does no such replacement: on a
representative input the returned `requestConfig` (which is also
serialized verbatim into the rendered TypeScript sample) carries the
literal secret in its `x-pica-secret` header. -/
theorem c1_generate_embeds_literal_secret :
    (Route.generateActionConfigKnowledge c1client "BOUNDARY" c1args).map
        (fun cfg => objGet cfg.headers "x-pica-secret")
      = .ok (some "sk-live-secret-123")
    ∧ c1client.secret = "sk-live-secret-123" := by decide

/-- C3 counterexample: execute mode performs no connection validation.  A
client whose connection list does not contain the referenced key still
assembles the request successfully instead of failing with an
unknown-connection error. -/
theorem c3_execute_skips_connection_validation :
    c3client.connections.any (fun conn => conn.key == c3args.connectionKey) = false
    ∧ (Route.executeAction c3client "B" c3args).isOk = true := by decide

/-- C3 amended: only generate mode validates the connection key.  When the
key is absent from the client's connection list (regardless of any
`active` flag), `generate_action_config_knowledge` fails with the
connection-not-found error naming the requested platform; execute mode
performs no such check (see the counterexample). -/
theorem c3_generate_validates_connection (client : PicaClient) (boundary : String)
    (args : GenerateArgs)
    (h : client.connections.any (fun conn => conn.key == args.connectionKey) = false) :
    Route.generateActionConfigKnowledge client boundary args
      = .error (.connectionNotFound args.platform) := by
  rw [Route.generateActionConfigKnowledge, h]
  simp

/-- C3 witness: the amended theorem applied to a concrete client that does
not know the requested key. -/
theorem c3_generate_validates_connection_witness :
    Route.generateActionConfigKnowledge c3client "B" c3genArgs
      = .error (.connectionNotFound "github") :=
  c3_generate_validates_connection c3client "B" c3genArgs (by decide)

/-- C10: when the upstream fetch of the connection list fails, the cached
list is left exactly as it was and that previous snapshot is returned; no
error is propagated (the function is total on the failure outcome). -/
theorem c10_refresh_failure_preserves_cache (client : PicaClient) (e : String) :
    PicaClient.refreshConnections client (.error e) = (client, client.connections) := rfl

/-- C9: a method equal to `get` in any letter case never attaches a body,
whatever the payload and the encoding flags, in both the `route.ts` and
the legacy `src/index.ts` `executeAction`. -/
theorem c9_get_never_attaches_body (client : PicaClient) (boundary : String)
    (args : ExecuteArgs) (h : jsToLower args.method = "get") :
    (∀ cfg, Route.executeAction client boundary args = .ok cfg → cfg.data = none)
    ∧ (∀ cfg, Legacy.executeAction client boundary args = .ok cfg → cfg.data = none) := by
  constructor <;> intro cfg hcfg
  · rw [Route.executeAction, h] at hcfg
    simp only [ne_eq, not_true_eq_false, if_false] at hcfg
    revert hcfg
    cases hres : (match args.pathVariables with
      | some vars => Route.replacePathVariables args.path vars
      | none => .ok args.path) with
    | error e => intro hcfg; cases hcfg
    | ok resolvedPath =>
      intro hcfg
      rw [← Except.ok.inj hcfg]
  · rw [Legacy.executeAction, h] at hcfg
    simp only [ne_eq, not_true_eq_false, if_false] at hcfg
    revert hcfg
    cases hres : (match args.pathVariables with
      | some vars => Legacy.replacePathVariables args.path vars
      | none => .ok args.path) with
    | error e => intro hcfg; cases hcfg
    | ok resolvedPath =>
      intro hcfg
      rw [← Except.ok.inj hcfg]

/-- C9 witness: a `GeT` request with a non-empty payload and the multipart
flag set still carries no body, in both variants. -/
theorem c9_get_never_attaches_body_witness :
    c9cfgRoute.data = none ∧ c9cfgLegacy.data = none :=
  ⟨(c9_get_never_attaches_body c9client "B" c9args (by decide)).1 c9cfgRoute (by decide),
   (c9_get_never_attaches_body c9client "B" c9args (by decide)).2 c9cfgLegacy (by decide)⟩

/- ### Error shape of the route resolver -/

theorem exceptMap_eq_error {e a b : Type} (f : a → b) (x : Except e a) (err : e) :
    x.map f = .error err ↔ x = .error err := by
  cases x <;> simp [Except.map]

/-- Every error thrown by the route `replacePathVariables` scanner is a
(singular) missing-path-variable error. -/
theorem rpvFuel_error_shape (vars : List (String × JValue)) :
    ∀ (fuel : Nat) (cs : List Char) (e : PicaError),
      Route.rpvFuel vars fuel cs = .error e → ∃ n, e = .missingPathVariable n := by
  intro fuel
  induction fuel with
  | zero =>
    intro cs e h
    cases cs <;> simp [Route.rpvFuel] at h
  | succ f IH =>
    intro cs e h
    cases cs with
    | nil => simp [Route.rpvFuel] at h
    | cons c rest =>
      simp only [Route.rpvFuel] at h
      split at h
      · split at h
        · split at h
          · exact ⟨_, (Except.error.inj h).symm⟩
          · split at h
            · exact ⟨_, (Except.error.inj h).symm⟩
            · rw [exceptMap_eq_error] at h
              exact IH _ _ h
        · rw [exceptMap_eq_error] at h
          exact IH _ _ h
      · rw [exceptMap_eq_error] at h
        exact IH _ _ h

/-- Errors of `Route.replacePathVariables` are singular
missing-path-variable errors. -/
theorem replacePathVariables_error_shape (path : String) (vars : List (String × JValue))
    (e : PicaError) (h : Route.replacePathVariables path vars = .error e) :
    ∃ n, e = .missingPathVariable n := by
  rw [Route.replacePathVariables] at h
  by_cases hp : path = ""
  · rw [if_pos hp] at h
    cases h
  · rw [if_neg hp, exceptMap_eq_error] at h
    exact rpvFuel_error_shape vars _ _ _ h

/-- C8 counterexample: a required path variable that is present with the
value `0` is still reported as missing, because the pre-check tests
truthiness rather than presence. -/
theorem c8_present_zero_counts_missing :
    partitionPathVars "/users/\x7b\x7bid\x7d\x7d" (some (.obj [("id", .num 0)])) none
      = .error (.missingPathVariables ["id"]) := by decide

/-- C8 amended: partition fails with the enumerating missing-variables
error exactly when some required name's combined lookup (data fields of a
non-array object, overridden by explicit path variables) is absent *or
falsy* — `0`, `false`, the empty string and `null` count as missing even
though present — and the error then lists every such name at once. -/
theorem c8_partition_missing_iff (path : String) (data : Option JValue)
    (pathVariables : Option (List (String × JValue))) :
    partitionPathVars path data pathVariables
        = .error (.missingPathVariables (missingVariablesOf path data pathVariables))
      ↔ missingVariablesOf path data pathVariables ≠ [] := by
  constructor
  · intro h hm
    rw [partitionPathVars] at h
    by_cases htv : extractTemplateVars path.data = []
    · rw [if_pos htv] at h
      cases h
    · rw [if_neg htv, if_neg (by simpa using hm)] at h
      rw [partitionFinish] at h
      split at h
      · rename_i e2 heq
        rcases replacePathVariables_error_shape _ _ _ heq with ⟨n, hn⟩
        exact PicaError.noConfusion (hn ▸ Except.error.inj h)
      · cases h
  · intro hm
    have htv : extractTemplateVars path.data ≠ [] := by
      intro h0
      apply hm
      rw [missingVariablesOf, requiredVariablesOf, h0]
      rfl
    rw [partitionPathVars, if_neg htv, if_pos (by simpa using hm)]

/-- C8 witness: the amended theorem applied to the spec's own example
(`data = {name: "a"}`, template `/users/\x7b\x7bid\x7d\x7d`). -/
theorem c8_partition_missing_iff_witness :
    partitionPathVars "/users/\x7b\x7bid\x7d\x7d" (some (.obj [("name", .str "a")])) none
      = .error (.missingPathVariables ["id"]) := by
  have h := (c8_partition_missing_iff "/users/\x7b\x7bid\x7d\x7d"
    (some (.obj [("name", .str "a")])) none).mpr (by decide)
  exact (by decide : missingVariablesOf "/users/\x7b\x7bid\x7d\x7d"
    (some (.obj [("name", .str "a")])) none = ["id"]) ▸ h

/- ### The clean-up loop moves promoted fields -/

/-- Once a key is gone from the working copy of `data`, the rest of the
clean-up loop neither resurrects it nor touches its path-variable slot. -/
theorem promote_foldl_stable (pv : Option (List (String × JValue))) (L : List String) :
    ∀ (fd fpv : List (String × JValue)) (v : String), objGet fd v = none →
      objGet ((L.foldl (promoteStep pv) (fd, fpv)).1) v = none
      ∧ objGet ((L.foldl (promoteStep pv) (fd, fpv)).2) v = objGet fpv v := by
  induction L with
  | nil => exact fun fd fpv v h => ⟨h, rfl⟩
  | cons w L IH =>
    intro fd fpv v h
    rw [List.foldl_cons]
    by_cases hw : w = v
    · subst hw
      rw [promoteStep, if_neg (by simp [h, jTruthy])]
      exact IH fd fpv w h
    · rw [promoteStep]
      by_cases hc : (jTruthy (objGet fd w) && pvAllows pv w) = true
      · rw [if_pos hc]
        have h1 : objGet (objDelete fd w) v = none := by
          rw [objGet_delete, if_neg (fun hh => hw hh.symm)]
          exact h
        have h2 := IH (objDelete fd w) (objSet fpv w ((objGet fd w).getD .null)) v h1
        refine ⟨h2.1, ?_⟩
        rw [h2.2, objGet_set, if_neg (fun hh => hw hh.symm)]
      · rw [if_neg hc]
        exact IH fd fpv v h

/-- Every required name with a truthy `data` field and no truthy explicit
path variable is moved by the clean-up loop: deleted from the working copy
of `data` and recorded in the final path-variable map with its original
value. -/
theorem promote_foldl_moves (pv : Option (List (String × JValue))) (L : List String) :
    ∀ (fd fpv : List (String × JValue)) (v : String), v ∈ L →
      jTruthy (objGet fd v) = true →
      pvAllows pv v = true →
      objGet ((L.foldl (promoteStep pv) (fd, fpv)).1) v = none
      ∧ objGet ((L.foldl (promoteStep pv) (fd, fpv)).2) v = objGet fd v := by
  induction L with
  | nil =>
    intro fd fpv v hv
    exact absurd hv (List.not_mem_nil v)
  | cons w L IH =>
    intro fd fpv v hv htr hpv
    rw [List.foldl_cons]
    by_cases hw : w = v
    · subst hw
      have hcond : (jTruthy (objGet fd w) && pvAllows pv w) = true := by
        rw [htr, hpv]
        rfl
      rw [promoteStep, if_pos hcond]
      have hdel : objGet (objDelete fd w) w = none := by
        rw [objGet_delete, if_pos rfl]
      have h2 := promote_foldl_stable pv L (objDelete fd w)
        (objSet fpv w ((objGet fd w).getD .null)) w hdel
      refine ⟨h2.1, ?_⟩
      rw [h2.2, objGet_set, if_pos rfl]
      cases ho : objGet fd w with
      | none => rw [ho] at htr; cases htr
      | some u => simp [ho]
    · have hvL : v ∈ L := by
        rcases List.mem_cons.mp hv with hh | hh
        · exact absurd hh.symm hw
        · exact hh
      rw [promoteStep]
      by_cases hc : (jTruthy (objGet fd w) && pvAllows pv w) = true
      · rw [if_pos hc]
        have htr2 : jTruthy (objGet (objDelete fd w) v) = true := by
          rw [objGet_delete, if_neg (fun hh => hw hh.symm)]
          exact htr
        have h2 := IH (objDelete fd w) (objSet fpv w ((objGet fd w).getD .null)) v hvL htr2 hpv
        refine ⟨h2.1, ?_⟩
        rw [h2.2, objGet_delete, if_neg (fun hh => hw hh.symm)]
      · rw [if_neg hc]
        exact IH fd fpv v hvL htr hpv

/-- C7: partitioning `/users/\x7b\x7bid\x7d\x7d` with `data = {id: 42, name: "a"}`
yields `resolvedPath "/users/42"`, `finalData {name: "a"}` and
`finalPathVariables {id: 42}`; and in general every required template name
that is found in a non-array object `data` and not supplied in
`explicitPathVariables` is moved out of `data` into the final
path-variable map (with its original value) and no longer appears among
the body fields. -/
theorem c7_partition_moves_required_fields :
    (partitionPathVars "/users/\x7b\x7bid\x7d\x7d"
        (some (.obj [("id", .num 42), ("name", .str "a")])) none
      = .ok ("/users/42", some (.obj [("name", .str "a")]), [("id", .num 42)]))
    ∧ (∀ (path : String) (fields : List (String × JValue))
        (pathVariables : Option (List (String × JValue))) (rp : String)
        (fd : Option JValue) (fpv : List (String × JValue)) (v : String),
        partitionPathVars path (some (.obj fields)) pathVariables = .ok (rp, fd, fpv) →
        v ∈ requiredVariablesOf path →
        (objGet fields v).isSome = true →
        objGet (pathVariables.getD []) v = none →
        (∃ gs, fd = some (.obj gs) ∧ objGet gs v = none)
        ∧ objGet fpv v = objGet fields v) := by
  constructor
  · decide
  · intro path fields pathVariables rp fd fpv v hok hreq hdata hpv
    have htv : extractTemplateVars path.data ≠ [] := by
      intro h0
      rw [requiredVariablesOf, h0] at hreq
      exact absurd hreq (List.not_mem_nil v)
    rw [partitionPathVars, if_neg htv] at hok
    by_cases hm : missingVariablesOf path (some (.obj fields)) pathVariables = []
    · rw [if_neg (by simpa using hm), if_pos (by rfl :
        dataSpreadable (some (.obj fields)) = true)] at hok
      dsimp only [] at hok
      rw [partitionFinish] at hok
      split at hok
      · cases hok
      · have h3 := Except.ok.inj hok
        simp only [Prod.ext_iff] at h3
        obtain ⟨h4, h5, h6⟩ := h3
        have hcomb : jTruthy (objGet (combinedVariablesOf (some (.obj fields)) pathVariables) v)
            = true := by
          by_contra hcc
          have hmem : v ∈ missingVariablesOf path (some (.obj fields)) pathVariables := by
            rw [missingVariablesOf]
            exact List.mem_filter.mpr ⟨hreq, by simpa using hcc⟩
          rw [hm] at hmem
          exact absurd hmem (List.not_mem_nil v)
        have hfields : jTruthy (objGet fields v) = true := by
          rw [combinedVariablesOf, objGet_merge_of_none _ _ _ hpv] at hcomb
          simpa [combinedBase, spreadFields] using hcomb
        have hpv2 : pvAllows pathVariables v = true := by
          cases pathVariables with
          | none => rfl
          | some pvl =>
            have hpv' : objGet pvl v = none := hpv
            simp [pvAllows, hpv', jTruthy]
        have hmove := promote_foldl_moves pathVariables (requiredVariablesOf path) fields
          (pathVariables.getD []) v hreq hfields hpv2
        refine ⟨⟨((requiredVariablesOf path).foldl (promoteStep pathVariables)
          (fields, pathVariables.getD [])).1, ?_, hmove.1⟩, ?_⟩
        · exact h5.symm
        · rw [← h6]
          exact hmove.2
    · rw [if_pos (by simpa using hm)] at hok
      cases hok

/-- C7 witness: the general part of the theorem applied to the spec's
example input. -/
theorem c7_partition_moves_required_fields_witness :
    objGet [("id", JValue.num 42)] "id"
      = objGet [("id", JValue.num 42), ("name", JValue.str "a")] "id" :=
  (c7_partition_moves_required_fields.2 "/users/\x7b\x7bid\x7d\x7d"
    [("id", JValue.num 42), ("name", JValue.str "a")] none "/users/42"
    (some (.obj [("name", .str "a")])) [("id", JValue.num 42)] "id"
    (by decide) (by decide) (by decide) (by decide)).2

/- ### Header precedence (C6) -/

/-- Modelled from the spec: the header precedence of §4.4, lowest to
highest with later entries overwriting earlier ones — base auth headers
(JSON content-type and secret header), then the two routing headers, then
the encoding-mode content-type header, then caller-supplied explicit
headers.  Used as the specification side of the refinement comparison. -/
def specHeaderLayers (client : PicaClient) (args : ExecuteArgs) : List (String × String) :=
  objMerge
    (objMerge
      (objMerge
        [("Content-Type", "application/json"), ("x-pica-secret", client.secret)]
        [("x-pica-connection-key", args.connectionKey), ("x-pica-action-id", args.actionId)])
      ((if args.isFormData then [("Content-Type", "multipart/form-data")] else []) ++
       (if args.isFormUrlEncoded then
         [("Content-Type", "application/x-www-form-urlencoded")] else [])))
    (args.headers.getD [])

/-- The spec layering coincides with the `objSet` chain that the source
builds. -/
theorem specHeaderLayers_eq (client : PicaClient) (args : ExecuteArgs) :
    specHeaderLayers client args =
      objMerge
        (if args.isFormUrlEncoded then
          objSet
            (if args.isFormData then
              objSet
                (objSet (objSet client.generateHeaders "x-pica-connection-key"
                  args.connectionKey) "x-pica-action-id" args.actionId)
                "Content-Type" "multipart/form-data"
            else
              objSet (objSet client.generateHeaders "x-pica-connection-key"
                args.connectionKey) "x-pica-action-id" args.actionId)
            "Content-Type" "application/x-www-form-urlencoded"
        else
          if args.isFormData then
            objSet
              (objSet (objSet client.generateHeaders "x-pica-connection-key"
                args.connectionKey) "x-pica-action-id" args.actionId)
              "Content-Type" "multipart/form-data"
          else
            objSet (objSet client.generateHeaders "x-pica-connection-key"
              args.connectionKey) "x-pica-action-id" args.actionId)
        (args.headers.getD []) := by
  by_cases hfd : args.isFormData <;> by_cases hfu : args.isFormUrlEncoded <;>
    simp [specHeaderLayers, hfd, hfu, objMerge, PicaClient.generateHeaders,
      List.foldl_cons, List.foldl_nil]

def c6client : PicaClient := { secret := "sk" }

def c6args : ExecuteArgs :=
  { actionId := "a", connectionKey := "k", method := "post", path := "/x",
    headers := some [("content-type", "text/plain")], isFormData := true }

def c6cfg : RequestConfig :=
  (Route.executeAction c6client "XYZ" c6args).toOption.getD emptyConfig

/-- C6 counterexample: with the multipart flag set, the `form-data`
boundary header is merged after the caller's explicit headers, so a
caller-supplied `content-type` header does *not* have the highest
precedence, contradicting the claimed ordering "for every combination of
caller headers and encoding flags (including multipart)". -/
theorem c6_multipart_overrides_caller_header :
    (Route.executeAction c6client "XYZ" c6args).map
        (fun cfg => objGet cfg.headers "content-type")
      = .ok (some "multipart/form-data; boundary=XYZ")
    ∧ objGet (c6args.headers.getD []) "content-type" = some "text/plain" := by decide

/-- C6 amended: the final header map is exactly the claimed precedence
chain (base auth → routing → encoding-mode content-type → caller headers,
later overwriting earlier) — except that when the request is non-GET and
multipart, the `form-data` boundary content-type is merged once more
*after* the caller's headers and therefore overwrites a caller entry with
the identical key. -/
theorem c6_header_precedence (client : PicaClient) (boundary : String)
    (args : ExecuteArgs) (cfg : RequestConfig)
    (hok : Route.executeAction client boundary args = .ok cfg) :
    cfg.headers =
      if jsToLower args.method ≠ "get" ∧ args.isFormData = true then
        objMerge (specHeaderLayers client args) [("content-type", formDataHeader boundary)]
      else specHeaderLayers client args := by
  rw [Route.executeAction] at hok
  dsimp only [] at hok
  split at hok
  · cases hok
  · by_cases hg : jsToLower args.method ≠ "get"
    · rw [if_pos hg] at hok
      by_cases hfd : args.isFormData
      · rw [if_pos hfd] at hok
        have hcond : jsToLower args.method ≠ "get" ∧ args.isFormData = true := ⟨hg, hfd⟩
        rw [← Except.ok.inj hok, if_pos hcond, specHeaderLayers_eq]
      · rw [if_neg hfd] at hok
        have hcond2 : ¬(jsToLower args.method ≠ "get" ∧ args.isFormData = true) :=
          fun hh => hfd hh.2
        rw [if_neg hcond2, specHeaderLayers_eq]
        by_cases hfu : args.isFormUrlEncoded
        · rw [if_pos hfu] at hok
          rw [← Except.ok.inj hok]
        · rw [if_neg hfu] at hok
          rw [← Except.ok.inj hok]
    · rw [if_neg hg] at hok
      have hcond2 : ¬(jsToLower args.method ≠ "get" ∧ args.isFormData = true) :=
        fun hh => hg hh.1
      rw [← Except.ok.inj hok, if_neg hcond2, specHeaderLayers_eq]

/-- C6 witness: the amended theorem applied to the multipart
counterexample input. -/
theorem c6_header_precedence_witness :
    c6cfg.headers
      = objMerge (specHeaderLayers c6client c6args)
          [("content-type", formDataHeader "XYZ")] := by
  have h := c6_header_precedence c6client "XYZ" c6args c6cfg (by decide)
  rw [if_pos (by constructor <;> decide)] at h
  exact h

/- ### The keys scanned by the route resolver (C5) -/

/-- Fueled mirror of the route scanner that records the trimmed lookup key
of every match, in scan order. -/
def scanKeysFuel : Nat → List Char → List String
  | _, [] => []
  | 0, _ => []
  | fuel + 1, c :: rest =>
    if c = '{' ∧ rest.head? = some '{' then
      let name := rest.tail.takeWhile (fun d => d ≠ '}')
      let after := rest.tail.dropWhile (fun d => d ≠ '}')
      if name ≠ [] ∧ after.take 2 = ['}', '}'] then
        jsTrim (String.mk name) :: scanKeysFuel fuel (after.drop 2)
      else scanKeysFuel fuel rest
    else scanKeysFuel fuel rest

/-- The scanned keys at canonical fuel. -/
def scanKeys (cs : List Char) : List String :=
  scanKeysFuel cs.length cs

/-- A lookup the route resolver accepts: present and neither `null` nor
the empty string (`0` and `false` are accepted). -/
def goodPathValue (vars : List (String × JValue)) (n : String) : Bool :=
  match objGet vars n with
  | none => false
  | some v => decide (¬(v = JValue.null ∨ v = JValue.str ""))

theorem exceptMap_isOk {e a b : Type} (f : a → b) (x : Except e a) :
    (x.map f).isOk = x.isOk := by
  cases x <;> rfl

/-- Lockstep characterization: the fueled route scanner succeeds exactly
when every scanned key has an acceptable value. -/
theorem rpvFuel_isOk_iff (vars : List (String × JValue)) :
    ∀ (fuel : Nat) (cs : List Char),
      ((Route.rpvFuel vars fuel cs).isOk = true ↔
        ∀ n ∈ scanKeysFuel fuel cs, goodPathValue vars n = true) := by
  intro fuel
  induction fuel with
  | zero =>
    intro cs
    cases cs <;> simp [Route.rpvFuel, scanKeysFuel, Except.isOk, Except.toBool]
  | succ f IH =>
    intro cs
    cases cs with
    | nil => simp [Route.rpvFuel, scanKeysFuel, Except.isOk, Except.toBool]
    | cons c rest =>
      simp only [Route.rpvFuel, scanKeysFuel]
      by_cases h1 : c = '{' ∧ rest.head? = some '{'
      · rw [if_pos h1, if_pos h1]
        by_cases h2 : rest.tail.takeWhile (fun d => d ≠ '}') ≠ [] ∧
            (rest.tail.dropWhile (fun d => d ≠ '}')).take 2 = ['}', '}']
        · rw [if_pos h2, if_pos h2]
          cases hv : objGet vars (jsTrim (String.mk (rest.tail.takeWhile (fun d => d ≠ '}')))) with
          | none =>
            dsimp only []
            constructor
            · intro h
              cases h
            · intro hall
              have := hall _ (List.mem_cons_self _ _)
              rw [goodPathValue, hv] at this
              cases this
          | some v =>
            dsimp only []
            by_cases h3 : v = JValue.null ∨ v = JValue.str ""
            · rw [if_pos h3]
              constructor
              · intro h
                cases h
              · intro hall
                have := hall _ (List.mem_cons_self _ _)
                rw [goodPathValue, hv] at this
                simp [h3] at this
            · rw [if_neg h3, exceptMap_isOk, IH, List.forall_mem_cons]
              have hgood : goodPathValue vars
                  (jsTrim (String.mk (rest.tail.takeWhile (fun d => d ≠ '}')))) = true := by
                rw [goodPathValue, hv]
                simpa using h3
              exact ⟨fun h => ⟨hgood, h⟩, fun h => h.2⟩
        · rw [if_neg h2, if_neg h2, exceptMap_isOk, IH]
      · rw [if_neg h1, if_neg h1, exceptMap_isOk, IH]

/-- C5 counterexample: the legacy resolver (`src/index.ts`) rejects the
number `0` as a path-variable value (its `if (!value)` truthiness test),
while the claim says `0` is accepted and substituted. -/
theorem c5_legacy_rejects_zero :
    Legacy.replacePathVariables "/u/\x7b\x7bid\x7d\x7d" [("id", .num 0)]
      = .error (.missingPathVariable "id") := by decide

/-- C5 amended: the route-variant resolver (`route.ts` / `part_002` /
`part_005`) fails exactly when some scanned placeholder's trimmed lookup
is absent, `null` or the empty string — in particular `0` and `false` are
accepted and substituted.  The legacy stdio resolver instead rejects every
falsy value (see the counterexample). -/
theorem c5_route_resolver_failure_iff (template : String) (vars : List (String × JValue)) :
    (Route.replacePathVariables template vars).isOk = true
      ↔ ∀ n ∈ scanKeys template.data, goodPathValue vars n = true := by
  rw [Route.replacePathVariables]
  by_cases hp : template = ""
  · rw [if_pos hp, hp]
    constructor
    · intro _ n hn
      cases hn
    · intro _
      rfl
  · rw [if_neg hp, exceptMap_isOk, Route.rpvAux, scanKeys]
    exact rpvFuel_isOk_iff vars _ _

/-- C5 witness: a template whose only placeholder maps to `0` resolves
successfully under the route resolver. -/
theorem c5_route_resolver_failure_iff_witness :
    (Route.replacePathVariables "/u/\x7b\x7bid\x7d\x7d" [("id", JValue.num 0)]).isOk = true :=
  (c5_route_resolver_failure_iff "/u/\x7b\x7bid\x7d\x7d" [("id", JValue.num 0)]).mpr (by decide)

/- ### Scanning across a literal prefix (C4) -/

theorem takeWhile_middle (p : Char → Bool) (xs : List Char) (y : Char) (ys : List Char)
    (hx : ∀ x ∈ xs, p x = true) (hy : p y = false) :
    (xs ++ y :: ys).takeWhile p = xs := by
  induction xs with
  | nil => simp [List.takeWhile_cons, hy]
  | cons x xs IH =>
    rw [List.cons_append, List.takeWhile_cons, hx x (List.mem_cons_self x xs),
      IH (fun z hz => hx z (List.mem_cons_of_mem x hz))]
    simp

theorem dropWhile_middle (p : Char → Bool) (xs : List Char) (y : Char) (ys : List Char)
    (hx : ∀ x ∈ xs, p x = true) (hy : p y = false) :
    (xs ++ y :: ys).dropWhile p = y :: ys := by
  induction xs with
  | nil => simp [List.dropWhile_cons, hy]
  | cons x xs IH =>
    rw [List.cons_append, List.dropWhile_cons, hx x (List.mem_cons_self x xs)]
    exact IH (fun z hz => hx z (List.mem_cons_of_mem x hz))

/-- The route scanner passes over a brace-free literal prefix unchanged. -/
theorem rpvAux_append_left (vars : List (String × JValue)) (xs ys : List Char)
    (h : '{' ∉ xs) :
    Route.rpvAux vars (xs ++ ys) = (Route.rpvAux vars ys).map (fun t => xs ++ t) := by
  induction xs with
  | nil =>
    cases hr : Route.rpvAux vars ys <;> simp [hr, Except.map]
  | cons x xs IH =>
    rw [List.mem_cons, not_or] at h
    rw [List.cons_append, Route.rpvAux_cons,
      if_neg (fun hh => h.1 hh.1.symm), IH h.2]
    cases hr : Route.rpvAux vars ys <;> simp [hr, Except.map]

/-- C4 counterexample: the legacy resolver (`src/index.ts`) substitutes
the raw `toString()` value without percent-encoding, and looks the name
up untrimmed, while the claim says every variant trims the name and
substitutes the percent-encoded form. -/
theorem c4_legacy_no_trim_no_encode :
    Legacy.replacePathVariables "/u/\x7b\x7bid\x7d\x7d" [("id", .str "a b")] = .ok "/u/a b"
    ∧ ("/u/a b" : String) ≠ "/u/" ++ encodeURIComponent "a b"
    ∧ Legacy.replacePathVariables "/u/\x7b\x7b id \x7d\x7d" [("id", .str "x")]
        = .error (.missingPathVariable " id ") := by decide

/-- C4 amended: the route-variant resolver (`route.ts` / `part_002` /
`part_005`) behaves as claimed: scanning past a brace-free prefix, it
finds the occurrence `\x7b\x7b name \x7d\x7d`, trims whitespace around the name
before the lookup, and replaces the occurrence with the percent-encoded
string form of the value (numbers and booleans stringified first),
continuing with the remainder of the template.  The legacy stdio resolver
violates this (see the counterexample). -/
theorem c4_route_resolver_trims_and_encodes (pre name post : String)
    (vars : List (String × JValue)) (v : JValue)
    (hpre : '{' ∉ pre.data)
    (hname1 : name.data ≠ [])
    (hname2 : ∀ x ∈ name.data, x ≠ '}')
    (hlook : objGet vars (jsTrim name) = some v)
    (hgood : ¬(v = JValue.null ∨ v = JValue.str "")) :
    Route.rpvAux vars (pre.data ++ '{' :: '{' :: (name.data ++ '}' :: '}' :: post.data))
      = (Route.rpvAux vars post.data).map
          (fun t => pre.data ++ ((encodeURIComponent (jsToString v)).data ++ t)) := by
  rw [rpvAux_append_left vars pre.data _ hpre, Route.rpvAux_cons]
  have hcond : ('{' : Char) = '{' ∧
      (('{' :: (name.data ++ '}' :: '}' :: post.data)).head? = some '{') := ⟨rfl, rfl⟩
  rw [if_pos hcond]
  simp only [List.tail_cons]
  rw [takeWhile_middle _ name.data '}' ('}' :: post.data)
      (fun z hz => by simpa using hname2 z hz) (by simp),
    dropWhile_middle _ name.data '}' ('}' :: post.data)
      (fun z hz => by simpa using hname2 z hz) (by simp)]
  have hcond2 : name.data ≠ [] ∧ (('}' :: '}' :: post.data).take 2 = ['}', '}']) :=
    ⟨hname1, rfl⟩
  rw [if_pos hcond2]
  have hmk : String.mk name.data = name := rfl
  rw [hmk, hlook]
  dsimp only []
  rw [if_neg hgood]
  cases hr : Route.rpvAux vars post.data <;> simp [hr, Except.map]

/-- C4 witness: the amended theorem applied to a concrete template and a
value containing a space (encoded as `%20`). -/
theorem c4_route_resolver_trims_and_encodes_witness :
    Route.rpvAux [("id", JValue.str "a b")]
        ("/u/".data ++ '{' :: '{' :: ("id".data ++ '}' :: '}' :: "".data))
      = (Route.rpvAux [("id", JValue.str "a b")] "".data).map
          (fun t => "/u/".data ++
            ((encodeURIComponent (jsToString (JValue.str "a b"))).data ++ t)) :=
  c4_route_resolver_trims_and_encodes "/u/" "id" "" [("id", JValue.str "a b")]
    (JValue.str "a b") (by decide) (by decide) (by decide) (by decide) (by decide)

/- ### Unresolved-placeholder detection (C2) -/

/-- Does a regex match (`\x7b\x7b[^\x7d]+\x7d\x7d`) start at the head of the
string? -/
def matchAt : List Char → Bool
  | [] => false
  | c :: rest =>
    (c == '{') && (rest.head? == some '{') &&
      !(rest.tail.takeWhile (fun d => d ≠ '}')).isEmpty &&
      ((rest.tail.dropWhile (fun d => d ≠ '}')).take 2 == ['}', '}'])

/-- Does the string contain an unresolved `\x7b\x7bname\x7d\x7d` placeholder
anywhere? -/
def hasPH : List Char → Bool
  | [] => false
  | c :: rest => matchAt (c :: rest) || hasPH rest

example : hasPH "/users/\x7b\x7bid\x7d\x7d".data = true := by decide
example : hasPH "/users/42".data = false := by decide

/-- A placeholder in a concatenation whose left part contains no opening
brace lies entirely in the right part. -/
theorem hasPH_append (xs ys : List Char) (h : '{' ∉ xs) :
    hasPH (xs ++ ys) = hasPH ys := by
  induction xs with
  | nil => rfl
  | cons x xs IH =>
    rw [List.mem_cons, not_or] at h
    have hx : (x == '{') = false := beq_eq_false_iff_ne.mpr (fun hh => h.1 hh.symm)
    rw [List.cons_append, hasPH, matchAt, hx, IH h.2]
    simp

/- ### The percent-encoder produces non-empty, brace-free output -/

theorem hexDigit_no_brace (n : Nat) : hexDigit n ≠ '{' ∧ hexDigit n ≠ '}' := by
  have h : n % 16 < 16 := Nat.mod_lt _ (by omega)
  simp only [hexDigit]
  revert h
  generalize n % 16 = m
  intro h
  interval_cases m <;> exact (by decide)

theorem percentByte_no_brace (b : Nat) : ∀ c ∈ percentByte b, c ≠ '{' ∧ c ≠ '}' := by
  intro c hc
  rw [percentByte] at hc
  simp only [List.mem_cons, List.not_mem_nil, or_false] at hc
  rcases hc with rfl | rfl | rfl
  · exact (by decide)
  · exact hexDigit_no_brace _
  · exact hexDigit_no_brace _

theorem encodeURIComponentChar_no_brace (c : Char) :
    ∀ x ∈ encodeURIComponentChar c, x ≠ '{' ∧ x ≠ '}' := by
  intro x hx
  rw [encodeURIComponentChar] at hx
  by_cases hu : uriUnreservedChar c
  · rw [if_pos hu, List.mem_singleton] at hx
    subst hx
    constructor
    · intro hh
      rw [hh] at hu
      exact absurd hu (by decide)
    · intro hh
      rw [hh] at hu
      exact absurd hu (by decide)
  · rw [if_neg hu] at hx
    rcases List.mem_flatten.mp hx with ⟨l, hl, hxl⟩
    rcases List.mem_map.mp hl with ⟨b, _, rfl⟩
    exact percentByte_no_brace b x hxl

theorem encodeURIComponent_no_lbrace (s : String) :
    '{' ∉ (encodeURIComponent s).data := by
  intro hmem
  rcases List.mem_flatten.mp hmem with ⟨l, hl, hxl⟩
  rcases List.mem_map.mp hl with ⟨c, _, rfl⟩
  exact (encodeURIComponentChar_no_brace c '{' hxl).1 rfl

theorem encodeURIComponent_no_rbrace (s : String) :
    '}' ∉ (encodeURIComponent s).data := by
  intro hmem
  rcases List.mem_flatten.mp hmem with ⟨l, hl, hxl⟩
  rcases List.mem_map.mp hl with ⟨c, _, rfl⟩
  exact (encodeURIComponentChar_no_brace c '}' hxl).2 rfl

theorem utf8Bytes_ne_nil (c : Char) : utf8Bytes c ≠ [] := by
  simp only [utf8Bytes]
  split
  · simp
  · split
    · simp
    · split <;> simp

theorem encodeURIComponentChar_ne_nil (c : Char) : encodeURIComponentChar c ≠ [] := by
  rw [encodeURIComponentChar]
  by_cases hu : uriUnreservedChar c
  · rw [if_pos hu]
    simp
  · rw [if_neg hu]
    intro hflat
    cases hb : utf8Bytes c with
    | nil => exact utf8Bytes_ne_nil c hb
    | cons b bs =>
      rw [hb, List.map_cons, List.flatten_cons, percentByte] at hflat
      cases hflat

theorem encodeURIComponent_ne_nil (s : String) (h : s.data ≠ []) :
    (encodeURIComponent s).data ≠ [] := by
  cases hd : s.data with
  | nil => exact absurd hd h
  | cons c cs =>
    show ((s.data.map encodeURIComponentChar).flatten) ≠ []
    rw [hd, List.map_cons, List.flatten_cons]
    intro happ
    rcases List.append_eq_nil.mp happ with ⟨h1, _⟩
    exact encodeURIComponentChar_ne_nil c h1

/- ### Scalar values render to non-empty strings -/

theorem toDigitsCore_length (b : Nat) :
    ∀ (f n : Nat) (ds : List Char), ds.length < (Nat.toDigitsCore b (f + 1) n ds).length := by
  intro f
  induction f with
  | zero =>
    intro n ds
    rw [Nat.toDigitsCore]
    split
    · simp
    · rw [Nat.toDigitsCore]
      simp
  | succ f IH =>
    intro n ds
    rw [Nat.toDigitsCore]
    split
    · simp
    · exact Nat.lt_trans (by simp) (IH (n / b) ((n % b).digitChar :: ds))

theorem natRepr_ne_nil (n : Nat) : (Nat.repr n).data ≠ [] := by
  show Nat.toDigitsCore 10 (n + 1) n [] ≠ []
  intro h
  have hlen := toDigitsCore_length 10 n n []
  rw [h] at hlen
  simp at hlen

theorem intRepr_ne_nil (i : Int) : (Int.repr i).data ≠ [] := by
  cases i with
  | ofNat m => exact natRepr_ne_nil m
  | negSucc m =>
    rw [Int.repr]
    intro h
    rw [String.data_append] at h
    rcases List.append_eq_nil.mp h with ⟨h1, _⟩
    cases h1

theorem jsToString_scalar_ne_nil (v : JValue) (hs : scalarJ v)
    (hg : ¬(v = JValue.null ∨ v = JValue.str "")) : (jsToString v).data ≠ [] := by
  cases v with
  | null => exact False.elim hs
  | arr xs => exact False.elim hs
  | obj fs => exact False.elim hs
  | bool b => cases b <;> exact (by decide)
  | num n =>
    show (Int.repr n).data ≠ []
    exact intRepr_ne_nil n
  | str s =>
    intro hd
    apply hg
    right
    cases s with
    | mk d =>
      have hd2 : d = [] := hd
      subst hd2
      rfl

/- ### Head preservation of the route scanner -/

theorem objGet_mem {a : Type} (m : List (String × a)) (k : String) (v : a)
    (h : objGet m k = some v) : ∃ p, p ∈ m ∧ p.2 = v := by
  rw [objGet] at h
  cases hf : m.find? (fun p => p.1 == k) with
  | none => rw [hf] at h; cases h
  | some p =>
    rw [hf] at h
    exact ⟨p, List.mem_of_find?_eq_some hf, Option.some.inj h⟩

/-- A non-`\x7b` head character is emitted verbatim. -/
theorem rpvFuel_head_eq (vars : List (String × JValue)) (fuel : Nat) (d : Char)
    (rest u : List Char) (h : Route.rpvFuel vars fuel (d :: rest) = .ok u)
    (hd : d ≠ '{') : u.head? = some d := by
  cases fuel with
  | zero =>
    rw [← Except.ok.inj h]
    rfl
  | succ f =>
    simp only [Route.rpvFuel] at h
    rw [if_neg (fun hh => hd hh.1)] at h
    cases hr : Route.rpvFuel vars f rest with
    | error e => rw [hr] at h; cases h
    | ok t =>
      rw [hr] at h
      simp only [Except.map] at h
      rw [← Except.ok.inj h]
      rfl

/-- Starting from a non-`\x7d` head character, successful scanning never
produces an output whose head is `\x7d` (replacements are non-empty and
brace-free for scalar-valued variable maps). -/
theorem rpvFuel_head_ne_rbrace (vars : List (String × JValue))
    (hscalar : ∀ p ∈ vars, scalarJ p.2) (fuel : Nat) (d : Char)
    (rest u : List Char) (h : Route.rpvFuel vars fuel (d :: rest) = .ok u)
    (hd : d ≠ '}') : u.head? ≠ some '}' := by
  cases fuel with
  | zero =>
    rw [← Except.ok.inj h]
    intro hh
    exact hd (Option.some.inj hh)
  | succ f =>
    simp only [Route.rpvFuel] at h
    by_cases h1 : d = '{' ∧ rest.head? = some '{'
    · rw [if_pos h1] at h
      by_cases h2 : rest.tail.takeWhile (fun d => d ≠ '}') ≠ [] ∧
          (rest.tail.dropWhile (fun d => d ≠ '}')).take 2 = ['}', '}']
      · rw [if_pos h2] at h
        cases hv : objGet vars (jsTrim (String.mk (rest.tail.takeWhile (fun d => d ≠ '}')))) with
        | none => rw [hv] at h; cases h
        | some v =>
          rw [hv] at h
          dsimp only [] at h
          by_cases h3 : v = JValue.null ∨ v = JValue.str ""
          · rw [if_pos h3] at h
            cases h
          · rw [if_neg h3] at h
            cases hr : Route.rpvFuel vars f
                ((rest.tail.dropWhile (fun d => d ≠ '}')).drop 2) with
            | error e => rw [hr] at h; cases h
            | ok t =>
              rw [hr] at h
              simp only [Except.map] at h
              rw [← Except.ok.inj h]
              have hsv : scalarJ v := by
                rcases objGet_mem vars _ v hv with ⟨p, hp, rfl⟩
                exact hscalar p hp
              have henc := encodeURIComponent_ne_nil (jsToString v)
                (jsToString_scalar_ne_nil v hsv h3)
              cases he : (encodeURIComponent (jsToString v)).data with
              | nil => exact absurd he henc
              | cons e0 es =>
                intro hh
                have he0 : e0 = '}' := by simpa using hh
                apply encodeURIComponent_no_rbrace (jsToString v)
                rw [he, ← he0]
                exact List.mem_cons_self e0 es
      · rw [if_neg h2] at h
        cases hr : Route.rpvFuel vars f rest with
        | error e => rw [hr] at h; cases h
        | ok t =>
          rw [hr] at h
          simp only [Except.map] at h
          rw [← Except.ok.inj h]
          intro hh
          exact hd (Option.some.inj hh)
    · rw [if_neg h1] at h
      cases hr : Route.rpvFuel vars f rest with
      | error e => rw [hr] at h; cases h
      | ok t =>
        rw [hr] at h
        simp only [Except.map] at h
        rw [← Except.ok.inj h]
        intro hh
        exact hd (Option.some.inj hh)

/- ### The first closing-brace run never gains a second brace -/

/-- Does the first `\x7d` of the string start a `\x7d\x7d` pair?  (This is the
second half of the scanner's match condition, applied at the top level.) -/
def firstBrk (v : List Char) : Bool :=
  decide ((v.dropWhile (fun d => d ≠ '}')).take 2 = ['}', '}'])

theorem firstBrk_cons_ne (c : Char) (l : List Char) (hc : c ≠ '}') :
    firstBrk (c :: l) = firstBrk l := by
  rw [firstBrk, firstBrk, List.dropWhile_cons, if_pos (by simpa using hc)]

theorem firstBrk_rbrace_iff (l : List Char) :
    firstBrk ('}' :: l) = false ↔ l.head? ≠ some '}' := by
  rw [firstBrk, List.dropWhile_cons, if_neg (by simp)]
  cases l with
  | nil => simp
  | cons x xs => simp [List.take]

/-- Successful scanning preserves the absence of a `\x7d\x7d` pair at the first
closing brace. -/
theorem rpvFuel_firstBrk (vars : List (String × JValue))
    (hscalar : ∀ p ∈ vars, scalarJ p.2) :
    ∀ (fuel : Nat) (zs w : List Char), firstBrk zs = false →
      Route.rpvFuel vars fuel zs = .ok w → firstBrk w = false := by
  intro fuel
  induction fuel with
  | zero =>
    intro zs w hbrk h
    cases zs with
    | nil =>
      rw [← Except.ok.inj h]
      rfl
    | cons c rest =>
      rw [← Except.ok.inj h]
      exact hbrk
  | succ f IH =>
    intro zs w hbrk h
    cases zs with
    | nil =>
      rw [← Except.ok.inj h]
      rfl
    | cons c rest =>
      simp only [Route.rpvFuel] at h
      by_cases h1 : c = '{' ∧ rest.head? = some '{'
      · rw [if_pos h1] at h
        obtain ⟨hc, hhd⟩ := h1
        obtain ⟨rtail, rfl⟩ : ∃ rtail, rest = '{' :: rtail := by
          cases rest with
          | nil => cases hhd
          | cons r0 rtail => exact ⟨rtail, by rw [Option.some.inj hhd]⟩
        have hbrk2 : firstBrk rtail = false := by
          rw [hc] at hbrk
          rw [firstBrk_cons_ne _ _ (by decide), firstBrk_cons_ne _ _ (by decide)] at hbrk
          exact hbrk
        have hcfalse : ¬(('{' :: rtail : List Char).tail.takeWhile (fun d => d ≠ '}') ≠ [] ∧
            ((('{' :: rtail : List Char).tail.dropWhile (fun d => d ≠ '}')).take 2
              = ['}', '}'])) := by
          intro hcond
          rw [List.tail_cons] at hcond
          rw [firstBrk] at hbrk2
          rw [hcond.2] at hbrk2
          simp at hbrk2
        rw [if_neg hcfalse] at h
        cases hr : Route.rpvFuel vars f ('{' :: rtail) with
        | error e => rw [hr] at h; cases h
        | ok t =>
          rw [hr] at h
          simp only [Except.map] at h
          rw [← Except.ok.inj h, hc]
          rw [firstBrk_cons_ne _ _ (by decide)]
          exact IH ('{' :: rtail) t
            (by rw [firstBrk_cons_ne _ _ (by decide)]; exact hbrk2) hr
      · rw [if_neg h1] at h
        cases hr : Route.rpvFuel vars f rest with
        | error e => rw [hr] at h; cases h
        | ok t =>
          rw [hr] at h
          simp only [Except.map] at h
          rw [← Except.ok.inj h]
          by_cases hcr : c = '}'
          · subst hcr
            rw [firstBrk_rbrace_iff] at hbrk ⊢
            cases rest with
            | nil =>
              have ht : t = [] := by
                have : Route.rpvFuel vars f [] = .ok [] := by
                  cases f <;> rfl
                rw [this] at hr
                exact (Except.ok.inj hr).symm
              rw [ht]
              simp
            | cons r0 rtail =>
              have hr0 : r0 ≠ '}' := by
                intro hh
                rw [hh] at hbrk
                exact hbrk rfl
              exact rpvFuel_head_ne_rbrace vars hscalar f r0 rtail t hr hr0
          · rw [firstBrk_cons_ne _ _ hcr] at hbrk
            rw [firstBrk_cons_ne _ _ hcr]
            exact IH rest t hbrk hr

/- ### Successful resolution leaves no placeholder (C2) -/

/-- Core lemma: when every variable value is a scalar (as the zod schema
for `pathVariables` guarantees), a successful run of the route scanner
produces an output with no remaining regex match. -/
theorem rpvFuel_no_placeholder (vars : List (String × JValue))
    (hscalar : ∀ p ∈ vars, scalarJ p.2) :
    ∀ (fuel : Nat) (cs out : List Char), cs.length ≤ fuel →
      Route.rpvFuel vars fuel cs = .ok out → hasPH out = false := by
  intro fuel
  induction fuel with
  | zero =>
    intro cs out hlen h
    cases cs with
    | nil =>
      rw [← Except.ok.inj h]
      rfl
    | cons c rest => simp at hlen
  | succ f IH =>
    intro cs out hlen h
    cases cs with
    | nil =>
      rw [← Except.ok.inj h]
      rfl
    | cons c rest =>
      have hlenr : rest.length ≤ f := by simpa using hlen
      simp only [Route.rpvFuel] at h
      by_cases h1 : c = '{' ∧ rest.head? = some '{'
      · rw [if_pos h1] at h
        by_cases h2 : rest.tail.takeWhile (fun d => d ≠ '}') ≠ [] ∧
            (rest.tail.dropWhile (fun d => d ≠ '}')).take 2 = ['}', '}']
        · rw [if_pos h2] at h
          cases hv : objGet vars
              (jsTrim (String.mk (rest.tail.takeWhile (fun d => d ≠ '}')))) with
          | none => rw [hv] at h; cases h
          | some v =>
            rw [hv] at h
            dsimp only [] at h
            by_cases h3 : v = JValue.null ∨ v = JValue.str ""
            · rw [if_pos h3] at h
              cases h
            · rw [if_neg h3] at h
              cases hr : Route.rpvFuel vars f
                  ((rest.tail.dropWhile (fun d => d ≠ '}')).drop 2) with
              | error e => rw [hr] at h; cases h
              | ok t =>
                rw [hr] at h
                simp only [Except.map] at h
                rw [← Except.ok.inj h,
                  hasPH_append _ _ (encodeURIComponent_no_lbrace (jsToString v))]
                apply IH _ t _ hr
                have ha := dropWhile_length_le (fun d : Char => decide (d ≠ '}')) rest.tail
                have hb : rest.tail.length ≤ rest.length := by
                  cases rest <;> simp [List.tail]
                simp only [List.length_drop]
                omega
        · rw [if_neg h2] at h
          cases hr : Route.rpvFuel vars f rest with
          | error e => rw [hr] at h; cases h
          | ok t =>
            rw [hr] at h
            simp only [Except.map] at h
            rw [← Except.ok.inj h]
            obtain ⟨hc, hhd⟩ := h1
            subst hc
            rw [hasPH, IH rest t hlenr hr]
            obtain ⟨rtail, rfl⟩ : ∃ rtail, rest = '{' :: rtail := by
              cases rest with
              | nil => cases hhd
              | cons r0 r2 => exact ⟨r2, by rw [Option.some.inj hhd]⟩
            rw [List.tail_cons] at h2
            -- fuel is positive because `rest` is non-empty
            cases f with
            | zero => simp at hlenr
            | succ f2 =>
              -- `t` starts with the emitted second opening brace
              have hstep : ∃ u, Route.rpvFuel vars f2 rtail = .ok u ∧ t = '{' :: u := by
                simp only [Route.rpvFuel, true_and] at hr
                by_cases hin : rtail.head? = some '{'
                · rw [if_pos hin] at hr
                  obtain ⟨r3, rfl⟩ : ∃ r3, rtail = '{' :: r3 := by
                    cases rtail with
                    | nil => cases hin
                    | cons q0 q2 => exact ⟨q2, by rw [Option.some.inj hin]⟩
                  have hinner : ¬(('{' :: r3 : List Char).tail.takeWhile (fun d => d ≠ '}') ≠ [] ∧
                      ((('{' :: r3 : List Char).tail.dropWhile (fun d => d ≠ '}')).take 2
                        = ['}', '}'])) := by
                    intro hcond
                    apply h2
                    constructor
                    · rw [List.takeWhile_cons, if_pos (by decide)]
                      simp
                    · rw [List.dropWhile_cons, if_pos (by decide)]
                      rw [List.tail_cons] at hcond
                      exact hcond.2
                  rw [if_neg hinner] at hr
                  cases hru : Route.rpvFuel vars f2 ('{' :: r3) with
                  | error e => rw [hru] at hr; cases hr
                  | ok u =>
                    rw [hru] at hr
                    simp only [Except.map] at hr
                    exact ⟨u, rfl, (Except.ok.inj hr).symm⟩
                · rw [if_neg hin] at hr
                  cases hru : Route.rpvFuel vars f2 rtail with
                  | error e => rw [hru] at hr; cases hr
                  | ok u =>
                    rw [hru] at hr
                    simp only [Except.map] at hr
                    exact ⟨u, rfl, (Except.ok.inj hr).symm⟩
              obtain ⟨u, hru, rfl⟩ := hstep
              -- refute the match at the two emitted braces
              by_cases hbrk : firstBrk rtail = false
              · have hD := rpvFuel_firstBrk vars hscalar f2 rtail u hbrk hru
                rw [firstBrk, decide_eq_false_iff_not] at hD
                have hm : matchAt ('{' :: '{' :: u) = false := by
                  rw [matchAt]
                  simp only [List.tail_cons, List.head?_cons]
                  have h4 : ((u.dropWhile (fun d => d ≠ '}')).take 2 == ['}', '}']) = false :=
                    beq_eq_false_iff_ne.mpr hD
                  rw [h4]
                  simp
                rw [hm]
                rfl
              · have hB : ((rtail.dropWhile (fun d => d ≠ '}')).take 2 = ['}', '}']) := by
                  rw [firstBrk, decide_eq_false_iff_not] at hbrk
                  by_contra hcc
                  exact hbrk (fun hh => hcc hh)
                have hA : rtail.takeWhile (fun d => d ≠ '}') = [] := by
                  by_contra hcc
                  exact h2 ⟨hcc, hB⟩
                have h3c : (u.takeWhile (fun d => d ≠ '}')).isEmpty = true := by
                  cases rtail with
                  | nil =>
                    have hu : u = [] := by
                      have hnil : Route.rpvFuel vars f2 [] = .ok [] := by
                        cases f2 <;> rfl
                      rw [hnil] at hru
                      exact (Except.ok.inj hru).symm
                    rw [hu]
                    rfl
                  | cons r0 r3 =>
                    have hr0 : r0 = '}' := by
                      rw [List.takeWhile_cons] at hA
                      by_cases hp : r0 = '}'
                      · exact hp
                      · rw [if_pos (by simpa using hp)] at hA
                        cases hA
                    have hhead : u.head? = some r0 := by
                      apply rpvFuel_head_eq vars f2 r0 r3 u hru
                      rw [hr0]
                      decide
                    cases u with
                    | nil => rfl
                    | cons u0 u2 =>
                      have hu0 : u0 = r0 := Option.some.inj hhead
                      rw [List.takeWhile_cons, hu0, hr0, if_neg (by simp)]
                      rfl
                have hm : matchAt ('{' :: '{' :: u) = false := by
                  rw [matchAt]
                  simp only [List.tail_cons, List.head?_cons]
                  rw [h3c]
                  simp
                rw [hm]
                rfl
      · rw [if_neg h1] at h
        cases hr : Route.rpvFuel vars f rest with
        | error e => rw [hr] at h; cases h
        | ok t =>
          rw [hr] at h
          simp only [Except.map] at h
          rw [← Except.ok.inj h, hasPH, IH rest t hlenr hr]
          by_cases hcl : c = '{'
          · subst hcl
            have hhd : rest.head? ≠ some '{' := fun hh => h1 ⟨rfl, hh⟩
            cases rest with
            | nil =>
              have ht : t = [] := by
                have hnil : Route.rpvFuel vars f [] = .ok [] := by
                  cases f <;> rfl
                rw [hnil] at hr
                exact (Except.ok.inj hr).symm
              rw [ht]
              rfl
            | cons r0 r2 =>
              have hr0 : r0 ≠ '{' := fun hh => hhd (by simp [hh])
              have hhead : t.head? = some r0 := rpvFuel_head_eq vars f r0 r2 t hr hr0
              have hm : matchAt ('{' :: t) = false := by
                rw [matchAt]
                have hsnd : (t.head? == some '{') = false := by
                  rw [hhead]
                  simpa using hr0
                rw [hsnd]
                simp
              rw [hm]
              rfl
          · have hm : matchAt (c :: t) = false := by
              rw [matchAt]
              have hfst : (c == '{') = false := by simpa using hcl
              rw [hfst]
              simp
            rw [hm]
            rfl

def c2client : PicaClient := { secret := "sk" }

def c2argsOk : ExecuteArgs :=
  { actionId := "a", connectionKey := "k", method := "post",
    path := "/users/\x7b\x7bid\x7d\x7d",
    pathVariables := some [("id", JValue.num 42)] }

def c2argsNone : ExecuteArgs :=
  { actionId := "a", connectionKey := "k", method := "post",
    path := "/users/\x7b\x7bid\x7d\x7d", pathVariables := none }

def c2cfg : RequestConfig :=
  (Route.executeAction c2client "B" c2argsOk).toOption.getD emptyConfig

/-- C2, counterexample: the claim extends the no-placeholder guarantee to
invocations that omit `pathVariables` entirely.  In the code the resolver
is called only inside `if (params.pathVariables)`; with the field absent
the template string is passed through literally, the call succeeds, and
the sent URL still contains the placeholder. -/
theorem c2_execute_passes_placeholder_when_no_pathvars :
    (Route.executeAction c2client "B" c2argsNone).map (fun cfg => hasPH cfg.url.data)
      = .ok true := by decide

/-- C2, amended: when `pathVariables` is supplied (its zod schema allows
only string/number/boolean values, i.e. scalars) and the base URL itself
contains no opening brace, a successful `executeAction` returns a request
whose URL contains no remaining placeholder; an unresolvable placeholder
is a hard `missingPathVariable` failure rather than a partial
substitution. -/
theorem c2_execute_url_placeholder_free
    (client : PicaClient) (boundary : String) (args : ExecuteArgs)
    (vars : List (String × JValue))
    (hpv : args.pathVariables = some vars)
    (hscalar : ∀ p ∈ vars, scalarJ p.2)
    (hbase : '{' ∉ client.baseUrl.data)
    (cfg : RequestConfig)
    (h : Route.executeAction client boundary args = .ok cfg) :
    hasPH cfg.url.data = false := by
  rw [Route.executeAction, hpv] at h
  dsimp only [] at h
  cases hrp : Route.replacePathVariables args.path vars with
  | error e =>
    rw [hrp] at h
    cases h
  | ok rp =>
    rw [hrp] at h
    dsimp only [] at h
    have hrpPH : hasPH rp.data = false := by
      rw [Route.replacePathVariables] at hrp
      by_cases he : args.path = ""
      · rw [if_pos he] at hrp
        rw [(Except.ok.inj hrp).symm, he]
        decide
      · rw [if_neg he] at hrp
        cases hout : Route.rpvAux vars args.path.data with
        | error e =>
          rw [hout] at hrp
          cases hrp
        | ok out =>
          rw [hout] at hrp
          simp only [Except.map] at hrp
          rw [(Except.ok.inj hrp).symm]
          exact rpvFuel_no_placeholder vars hscalar args.path.data.length
            args.path.data out (Nat.le_refl _) hout
    have hurl : cfg.url = client.baseUrl ++ "/v1/passthrough" ++
        (if startsWithSlash rp then rp else "/" ++ rp) := by
      split at h
      · split at h
        · rw [← Except.ok.inj h]
        · split at h
          · rw [← Except.ok.inj h]
          · rw [← Except.ok.inj h]
      · rw [← Except.ok.inj h]
    rw [hurl, String.data_append, String.data_append]
    have hpre : '{' ∉ client.baseUrl.data ++ "/v1/passthrough".data := by
      rw [List.mem_append]
      rintro (hc | hc)
      · exact hbase hc
      · exact absurd hc (by decide)
    rw [hasPH_append _ _ hpre]
    by_cases hs : startsWithSlash rp
    · rw [if_pos hs]
      exact hrpPH
    · rw [if_neg hs, String.data_append, hasPH_append _ _ (by decide)]
      exact hrpPH

/-- Closed instance of the amended C2 theorem. -/
theorem c2_execute_url_placeholder_free_witness : hasPH c2cfg.url.data = false :=
  c2_execute_url_placeholder_free c2client "B" c2argsOk [("id", JValue.num 42)]
    (by decide) (by decide) (by decide) c2cfg (by decide)
